import Mathlib

/-!
The xScanner work manager and probes (src/xScanner/ScanWork.cpp)

A shallow embedding of the scanner's bookkeeping code: the work manager's
dedup sets and queues, the result merge of `ScanWork::PublishResult`, the
subnet expansion, the reachability probe, the MAC vendor lookup with its
cache, the wait loop and the ARP correlation of the local-machine probe, and
the FPP probe.

`std::string` is `String`, `std::list` is `List` (front of the list first),
a `std::queue` is a `List` with `push` appending at the back, and the
mutex-guarded members of `WorkManager` are fields of a record that every
operation takes and returns.  A probe is also given as the list of calls it
makes on the manager, in order; what the network, the JSON reader and the
operating system answer is an argument of the probe.
-/

set_option autoImplicit false

namespace xScanner

/-- One result record: the `std::list<std::pair<std::string, std::string>>`
that a work item builds with `push_back`. -/
abbrev Record := List (String × String)

/-- The work items of ScanWork.cpp, one constructor per `ScanWork` subclass,
with the constructor arguments used at the `new ...Work(...)` call sites. -/
inductive Work where
  | ping (ip why proxy : String)
  | http (ip : String) (port : Int) (proxy : String)
  | fpp (ip proxy : String)
  | falcon (ip proxy : String)
  | xschedule (ip : String) (port : Int)
  | discover
  | computer
  | mac (ip macAddress : String)
  deriving DecidableEq, Repr

/-- The members of `WorkManager` that the embedded operations read or write:
`_scannedIP`, `_scannedHTTP`, the three queues, the found set, and the
records handed to the sink so far (oldest first). -/
structure WorkManager where
  scannedIP : List String := []
  scannedHTTP : List String := []
  queuePing : List Work := []
  queueMain : List Work := []
  queueOther : List Work := []
  found : List String := []
  published : List Record := []
  deriving DecidableEq, Repr

/-- Modelled from the spec: `WorkManager::PublishResult` is declared in
ScanWork.h, which is not among the sources; the spec says it forwards the
record to the external sink.  The sink is the `published` field, to which one
call appends one record. -/
def WorkManager.PublishResult (wm : WorkManager) (out : Record) : WorkManager :=
  { wm with published := wm.published ++ [out] }

/-- The inner loop of `ScanWork::PublishResult` (lines 602-608): walk `out`
from the front and report whether some entry has the key `key`. -/
def keyFound (key : String) : Record → Bool
  | [] => false
  | it2 :: rest => if it2.1 = key then true else keyFound key rest

/-- The outer loop of `ScanWork::PublishResult` (lines 601-612).  The first
argument is what the reverse iterator still has to visit (the input back to
front), the second is `out`; an entry whose key is not yet in `out` is
`push_front`ed. -/
def mergeLoop : Record → Record → Record
  | [], out => out
  | it :: rest, out => mergeLoop rest (if keyFound it.1 out then out else it :: out)

/-- The list `out` that `ScanWork::PublishResult` builds from `result`. -/
def mergedRecord (result : Record) : Record :=
  mergeLoop result.reverse []

/-- The method `ScanWork::PublishResult` (lines 594-615): return at once on an empty
`result`, otherwise hand the merged list to `WorkManager::PublishResult`. -/
def ScanWork.PublishResult (wm : WorkManager) (result : Record) : WorkManager :=
  if result.length = 0 then wm
  else wm.PublishResult (mergedRecord result)

/-- The method `WorkManager::AddIP` (lines 162-171): when `ip` is not in `_scannedIP`,
append it there and push a `PingWork(ip, why, proxy)` on the ping queue. -/
def WorkManager.AddIP (wm : WorkManager) (ip : String) (why : String) (proxy : String) :
    WorkManager :=
  if ip ∈ wm.scannedIP then wm
  else { wm with scannedIP := wm.scannedIP ++ [ip],
                 queuePing := wm.queuePing ++ [Work.ping ip why proxy] }

/-- The decimal digits of `n`, most significant first, as the `%d` conversion
of `wxString::Format` prints a non-negative `int`.  The first argument bounds
the recursion; `n + 1` digits are never needed for `n`. -/
def fmtDigits : Nat → Nat → List Char
  | 0, _ => []
  | fuel + 1, n =>
    if n < 10 then [Nat.digitChar n]
    else fmtDigits fuel (n / 10) ++ [Nat.digitChar (n % 10)]

/-- The `%d` conversion of `wxString::Format`: decimal digits, with a leading
minus sign for a negative value. -/
def fmtD : Int → String
  | Int.ofNat m => String.mk (fmtDigits (m + 1) m)
  | Int.negSucc m => String.mk ('-' :: fmtDigits (m + 2) (m + 1))

/-- The `%s` conversion of `wxString::Format` for a `std::string` argument:
the argument is handed over as `c_str()`, so what is printed is the string up
to its first NUL character. -/
def cstr (s : String) : String :=
  String.mk (s.data.takeWhile (fun c => decide (c ≠ Char.ofNat 0)))

/-- The key `wxString::Format("%s:%s:%d", ip, proxy, port)` of
`WorkManager::AddHTTP` (line 153). -/
def httpKey (ip : String) (proxy : String) (port : Int) : String :=
  cstr ip ++ ":" ++ cstr proxy ++ ":" ++ fmtD port

/-- The method `WorkManager::AddHTTP` (lines 149-160): when the formatted key is not in
`_scannedHTTP`, append it there and push an `HTTPWork(ip, port, proxy)` on the
main queue. -/
def WorkManager.AddHTTP (wm : WorkManager) (ip : String) (port : Int) (proxy : String) :
    WorkManager :=
  let h := httpKey ip proxy port
  if h ∈ wm.scannedHTTP then wm
  else { wm with scannedHTTP := wm.scannedHTTP ++ [h],
                 queueMain := wm.queueMain ++ [Work.http ip port proxy] }

/-- The loop of the wxWidgets library function `wxSplit(str, sep, escape)`:
`curr` is the token being collected and `ret` the tokens finished so far.  A
separator ends the token; the escape character followed by a separator stands
for a plain separator inside the token and is otherwise kept.  The result is
the finished tokens together with the token still open at the end. -/
def wxSplitLoop (sep escape : Char) : List Char → List Char → List String →
    List String × List Char
  | [], curr, ret => (ret, curr)
  | ch :: rest, curr, ret =>
    if ch = sep then wxSplitLoop sep escape rest [] (ret ++ [String.mk curr])
    else if ch = escape then
      match rest with
      | [] => (ret, curr ++ [ch])
      | nxt :: rest2 =>
        wxSplitLoop sep escape rest2 (if nxt = sep then curr ++ [nxt] else curr ++ [ch, nxt]) ret
    else wxSplitLoop sep escape rest (curr ++ [ch]) ret

/-- The wxWidgets library function `wxSplit(str, sep)` with its default escape
character, the backslash: the tokens of `str` between separators, empty tokens
included; the empty string has no token. -/
def wxSplit (str : String) (sep : Char) : List String :=
  let r := wxSplitLoop sep (Char.ofNat 92) str.data [] []
  if str.data = [] then r.1 else r.1 ++ [String.mk r.2]

/-- The digit loop of the C library function `atoi`: accumulate decimal digits
and stop at the first character that is not one. -/
def atoiDigits : Nat → List Char → Nat
  | acc, [] => acc
  | acc, c :: rest =>
    if c.isDigit then atoiDigits (acc * 10 + (c.toNat - 48)) rest else acc

/-- The C library predicate `isspace` in the C locale: the space and the
control characters 9 to 13. -/
def isspace (c : Char) : Bool :=
  c = ' ' || (9 ≤ c.toNat && c.toNat ≤ 13)

/-- The wxWidgets function `wxAtoi`, which is C `atoi` on the string's
characters: skip leading white space, read an optional sign and then decimal
digits, and give 0 when there is no digit.  The value is the mathematical one;
`atoi` is undefined where it does not fit an `int`, and no statement below
depends on such an input. -/
def wxAtoi (s : String) : Int :=
  match s.data.dropWhile isspace with
  | [] => 0
  | c :: rest =>
    if c = '-' then - (atoiDigits 0 rest : Int)
    else if c = '+' then (atoiDigits 0 rest : Int)
    else (atoiDigits 0 (c :: rest) : Int)

/-- The address `wxString::Format("%d.%d.%d.%d", ip1, ip2, ip3, i)` built at
line 184. -/
def fmtQuad (ip1 ip2 ip3 i : Int) : String :=
  fmtD ip1 ++ "." ++ fmtD ip2 ++ "." ++ fmtD ip3 ++ "." ++ fmtD i

/-- The loop `for (uint8_t i = 1; i < 255; i++)` of
`WorkManager::AddClassDSubnet` (lines 183-186), entered with counter `i`: one
`AddIP` per iteration, the counter incremented as an 8-bit value. -/
def subnetLoop (ip1 ip2 ip3 : Int) (proxy : String) (i : Nat) (wm : WorkManager) :
    WorkManager :=
  if i < 255 then
    subnetLoop ip1 ip2 ip3 proxy ((i + 1) % 256) (wm.AddIP (fmtQuad ip1 ip2 ip3 i) "" proxy)
  else wm
termination_by 255 - i
decreasing_by omega

/-- The method `WorkManager::AddClassDSubnet` (lines 173-188): split the
address on the dot; with more than three elements, convert the leading ones
with `wxAtoi` (the fourth is converted too, and never used) and run the loop
over the last octet. -/
def WorkManager.AddClassDSubnet (wm : WorkManager) (ip : String) (proxy : String) :
    WorkManager :=
  let ipElements := wxSplit ip '.'
  if ipElements.length > 3 then
    let ip1 := wxAtoi (ipElements.getD 0 "")
    let ip2 := wxAtoi (ipElements.getD 1 "")
    let ip3 := wxAtoi (ipElements.getD 2 "")
    subnetLoop ip1 ip2 ip3 proxy 1 wm
  else wm

/-- Modelled from the spec: `WorkManager::AddFoundIP` is declared in
ScanWork.h, which is not among the sources; the spec says it records a
confirmed-reachable host.  Each call appends the host to `found`. -/
def WorkManager.AddFoundIP (wm : WorkManager) (ip : String) : WorkManager :=
  { wm with found := wm.found ++ [ip] }

/-- The classification of `PingWork::DoWork` (lines 201-243): the value of
`privateNetwork` after the chain of tests on the four converted octets. -/
def privateNetwork (ip1 ip2 ip3 ip4 : Int) : Bool :=
  if ip1 = 10 then
    if ip2 = 255 ∧ ip3 = 255 ∧ ip4 = 255 then false else true
  else if ip1 = 192 ∧ ip2 = 168 then
    if ip3 = 255 ∧ ip4 = 255 then false else true
  else if ip1 = 172 ∧ ip2 ≥ 16 ∧ ip2 ≤ 31 then true
  else if ip1 = 255 ∧ ip2 = 255 ∧ ip3 = 255 ∧ ip4 = 255 then false
  else if ip1 = 0 then false
  else if ip1 ≥ 224 ∧ ip1 ≤ 239 then false
  else false

/-- The record `PingWork::DoWork` has built when it calls `IPOutput::Ping`
(lines 245-251), from the probe's fields and the converted octets. -/
def pingResults (ip why : String) (ip1 ip2 ip3 ip4 : Int) : Record :=
  [("IP", ip), ("Type", "Ping")] ++
  (if why ≠ "" then [("Why", why)] else []) ++
  [("Network", fmtD ip1 ++ "." ++ fmtD ip2 ++ "." ++ fmtD ip3 ++ ".0"),
   ("Network Type", if privateNetwork ip1 ip2 ip3 ip4 then "Private" else "Public")]

/-- The method `PingWork::DoWork` (lines 190-269) for a probe with fields `ip`, `why`,
`proxy`.  `pingOK` is what the external `IPOutput::Ping` answered: true for
`PING_OK` or `PING_WEBOK`. -/
def PingWork.DoWork (wm : WorkManager) (ip why proxy : String) (pingOK : Bool) :
    WorkManager :=
  let ipElements := wxSplit ip '.'
  if ipElements.length > 3 then
    let ip1 := wxAtoi (ipElements.getD 0 "")
    let ip2 := wxAtoi (ipElements.getD 1 "")
    let ip3 := wxAtoi (ipElements.getD 2 "")
    let ip4 := wxAtoi (ipElements.getD 3 "")
    let results := pingResults ip why ip1 ip2 ip3 ip4
    if pingOK then
      ScanWork.PublishResult ((wm.AddFoundIP ip).AddHTTP ip 80 proxy)
        (results ++ [("PING", "OK")])
    else
      (ScanWork.PublishResult wm (results ++ [("PING", "FAILED")])).AddHTTP ip 80 proxy
  else wm

/-- One `AddHTTP` call: its arguments `(ip, port, proxy)`. -/
abbrev HTTPCall := String × Int × String

/-- The manager after the `AddHTTP` calls of `calls`, made in order on `wm`. -/
def addHTTPCalls (wm : WorkManager) (calls : List HTTPCall) : WorkManager :=
  calls.foldl (fun s c => s.AddHTTP c.1 c.2.1 c.2.2) wm

/-- The arguments of an `AddHTTP` call as its key shows them: `ip` and `proxy`
up to their first NUL character, and the port. -/
def httpTriple (c : HTTPCall) : HTTPCall :=
  (cstr c.1, c.2.1, cstr c.2.2)

/-- The pairs of `result` that are the last occurrence of their key, in input
order, as the description of the merge words it: a pair is kept exactly when
no later pair has its key. -/
def lastOccurrences : Record → Record
  | [] => []
  | p :: rest =>
    if rest.any (fun q => q.1 = p.1) then lastOccurrences rest
    else p :: lastOccurrences rest

/-- Modelled from the spec: `WorkManager::AddWork` is declared in ScanWork.h,
which is not among the sources; the spec says it enqueues the item on the lane
matching its type, with no dedup: reachability probes on the ping lane, HTTP
probes on the main lane, the controller, scheduler, local-machine and MAC items
on the other lane.  The spec names no lane for the discovery item; it is put
on the other lane. -/
def WorkManager.AddWork (wm : WorkManager) (w : Work) : WorkManager :=
  match w with
  | Work.ping _ _ _ => { wm with queuePing := wm.queuePing ++ [w] }
  | Work.http _ _ _ => { wm with queueMain := wm.queueMain ++ [w] }
  | _ => { wm with queueOther := wm.queueOther ++ [w] }

/-- One call that a work item makes on the `WorkManager` it is given. -/
inductive Call where
  | addFoundIP (ip : String)
  | addHTTP (ip : String) (port : Int) (proxy : String)
  | addIP (ip why proxy : String)
  | addClassDSubnet (ip proxy : String)
  | addWork (w : Work)
  | publishResult (out : Record)
  deriving DecidableEq, Repr

/-- The effect of one call on the manager. -/
def WorkManager.call (wm : WorkManager) : Call → WorkManager
  | Call.addFoundIP ip => wm.AddFoundIP ip
  | Call.addHTTP ip port proxy => wm.AddHTTP ip port proxy
  | Call.addIP ip why proxy => wm.AddIP ip why proxy
  | Call.addClassDSubnet ip proxy => wm.AddClassDSubnet ip proxy
  | Call.addWork w => wm.AddWork w
  | Call.publishResult out => wm.PublishResult out

/-- The effect of a sequence of calls, made in order. -/
def WorkManager.run (wm : WorkManager) (calls : List Call) : WorkManager :=
  calls.foldl WorkManager.call wm

/-- The calls `ScanWork::PublishResult` (lines 594-615) makes on the manager:
none for an empty `result`, else one `WorkManager::PublishResult` with the
merged list. -/
def ScanWork.publishCalls (result : Record) : List Call :=
  if result.length = 0 then [] else [Call.publishResult (mergedRecord result)]

/-- The calls `PingWork::DoWork` (lines 190-269) makes on the manager, in
order, for a probe with fields `ip`, `why`, `proxy` and the answer `pingOK` of
`IPOutput::Ping`. -/
def PingWork.calls (ip why proxy : String) (pingOK : Bool) : List Call :=
  let ipElements := wxSplit ip '.'
  if ipElements.length > 3 then
    let ip1 := wxAtoi (ipElements.getD 0 "")
    let ip2 := wxAtoi (ipElements.getD 1 "")
    let ip3 := wxAtoi (ipElements.getD 2 "")
    let ip4 := wxAtoi (ipElements.getD 3 "")
    let results := pingResults ip why ip1 ip2 ip3 ip4
    if pingOK then
      [Call.addFoundIP ip, Call.addHTTP ip 80 proxy] ++
        ScanWork.publishCalls (results ++ [("PING", "OK")])
    else
      ScanWork.publishCalls (results ++ [("PING", "FAILED")]) ++ [Call.addHTTP ip 80 proxy]
  else []

/-- Modelled from the spec: the helper `Contains` of UtilFunctions.h is not
among the sources; the spec speaks of a marker being present in a response,
which is the substring test: `sub` occurs in `s` at some position. -/
def Contains (s sub : String) : Bool :=
  s.data.tails.any (fun t => sub.data.isPrefixOf t)

/-- The text `s` between two double-quote characters, as in the C++ literals
of lines 1004 and 1007. -/
def quoted (s : String) : String :=
  String.mk (Char.ofNat 34 :: (s.data ++ [Char.ofNat 34]))

/-- The `static std::map<std::string, std::string> cache` of
`MACWork::DoWork` (line 986): its entries, at most one per key. -/
abbrev VendorCache := List (String × String)

/-- The lookup `cache.find(_mac)` followed by `cache[_mac]`: the value stored
for `mac`, if there is an entry. -/
def cacheFind (cache : VendorCache) (mac : String) : Option String :=
  match cache with
  | [] => none
  | e :: rest => if e.1 = mac then some e.2 else cacheFind rest mac

/-- The assignment `cache[_mac] = vendor`: replace the value of the entry for
`mac`, or add an entry when there is none. -/
def cacheSet (cache : VendorCache) (mac vendor : String) : VendorCache :=
  match cache with
  | [] => [(mac, vendor)]
  | e :: rest => if e.1 = mac then (mac, vendor) :: rest else e :: cacheSet rest mac vendor

/-- What one `MACWork::DoWork` leaves behind: the cache, the number of remote
lookups (`Curl::HTTPSGet`) it made, and its calls on the manager. -/
structure MACOutcome where
  cache : VendorCache
  remoteCalls : Nat
  calls : List Call
  deriving DecidableEq, Repr

/-- The two branches at the end of `MACWork::DoWork` (lines 1017-1029): the
record with the vendor when it is not empty, without it otherwise, handed to
`ScanWork::PublishResult`. -/
def MACWork.publish (ip mac vendor : String) : List Call :=
  if vendor ≠ "" then
    ScanWork.publishCalls [("Type", "MAC"), ("IP", ip), ("MAC", mac), ("MAC Vendor", vendor)]
  else
    ScanWork.publishCalls [("Type", "MAC"), ("IP", ip), ("MAC", mac)]

/-- The method `MACWork::DoWork` (lines 981-1030) for a work item with fields
`ip` and `mac`, run on the shared cache `cache`.  `LookupMacAddress` is the
static vendor table of MAC.h, which is not among the sources, and `reply` is
what `Curl::HTTPSGet` answers for this MAC if it is asked. -/
def MACWork.DoWork (LookupMacAddress : String → String) (reply : String)
    (cache : VendorCache) (ip mac : String) : MACOutcome :=
  let vendor0 := LookupMacAddress mac
  let vendor1 :=
    if vendor0 = "" then
      match cacheFind cache mac with
      | some v => v
      | none => vendor0
    else vendor0
  if vendor1 = "" then
    let vendor2 :=
      if Contains reply (quoted "Not Found") then ""
      else if Contains reply (quoted "Too Many Requests") then "MAC Lookup Unavailable"
      else reply
    let cache2 := if vendor2 ≠ "MAC Lookup Unavailable" then cacheSet cache mac vendor2 else cache
    { cache := cache2, remoteCalls := 1, calls := MACWork.publish ip mac vendor2 }
  else
    { cache := cache, remoteCalls := 0, calls := MACWork.publish ip mac vendor1 }

/-- One MAC lookup to run: the work item's `ip` and `mac`, and the reply the
remote service would give to it. -/
structure MACLookup where
  ip : String
  mac : String
  reply : String
  deriving DecidableEq, Repr

/-- A sequence of MAC lookups run one after the other on the shared cache:
the cache at the end and the number of remote lookups made in total. -/
def macLookups (LookupMacAddress : String → String) :
    VendorCache → List MACLookup → VendorCache × Nat
  | cache, [] => (cache, 0)
  | cache, l :: rest =>
    let o := MACWork.DoWork LookupMacAddress l.reply cache l.ip l.mac
    let r := macLookups LookupMacAddress o.cache rest
    (r.1, o.remoteCalls + r.2)

/-- What the wait loop at the end of `ComputerWork::DoWork` does, step by
step: a read of `_terminate` with the value read, a `wxMilliSleep` with its
duration in milliseconds, or a call of `ScanARP`. -/
inductive LoopEvent where
  | check (terminate : Bool)
  | sleep (ms : Nat)
  | scanARP
  deriving DecidableEq, Repr

/-- The inner loop `for (uint32_t j = 0; j < 1500 && !_terminate; j++)
wxMilliSleep(10);` (lines 972-974), entered with counter `j`.  The flag is
written by another thread, so `terminate n` is the value the `n`-th read of
`_terminate` sees and `r` counts the reads made so far.  The result is the
number of reads after the loop and the events of the loop in order. -/
def sleepLoop (terminate : Nat → Bool) (j r : Nat) : Nat × List LoopEvent :=
  if j < 1500 then
    if terminate r then (r + 1, [LoopEvent.check true])
    else
      let s := sleepLoop terminate ((j + 1) % 4294967296) (r + 1)
      (s.1, LoopEvent.check false :: LoopEvent.sleep 10 :: s.2)
  else (r, [])
termination_by 1500 - j
decreasing_by omega

/-- The wait loop of `ComputerWork::DoWork` (lines 971-978), entered with
counter `i` after `r` reads of `_terminate`: the events of the loop in order.
The test `i < 40 && !_terminate` reads the flag only when `i < 40`, and the
flag is read again by `if (!_terminate)` before `ScanARP`. -/
def waitLoop (terminate : Nat → Bool) (i r : Nat) : List LoopEvent :=
  if i < 40 then
    if terminate r then [LoopEvent.check true]
    else
      LoopEvent.check false :: ((sleepLoop terminate 0 (r + 1)).2 ++
        (if terminate (sleepLoop terminate 0 (r + 1)).1 then
          LoopEvent.check true :: waitLoop terminate (i + 1) ((sleepLoop terminate 0 (r + 1)).1 + 1)
        else
          LoopEvent.check false :: LoopEvent.scanARP ::
            waitLoop terminate (i + 1) ((sleepLoop terminate 0 (r + 1)).1 + 1)))
  else []
termination_by 40 - i
decreasing_by all_goals omega

/-- The milliseconds slept in a sequence of loop events. -/
def sleptMs : List LoopEvent → Nat
  | [] => 0
  | LoopEvent.sleep ms :: rest => ms + sleptMs rest
  | _ :: rest => sleptMs rest

/-- No work after an observed cancellation: every event that follows a read
of `_terminate` with the value true is again such a read. -/
def stopsAfterCancel : List LoopEvent → Prop
  | [] => True
  | e :: rest =>
    (e = LoopEvent.check true → ∀ x ∈ rest, x = LoopEvent.check true) ∧ stopsAfterCancel rest

/-- Every sleep and every `ScanARP` of the sequence comes directly after a
read of `_terminate` with the value false. -/
def workIsGuarded : List LoopEvent → Prop
  | [] => True
  | LoopEvent.check false :: LoopEvent.sleep _ :: rest => workIsGuarded rest
  | LoopEvent.check false :: LoopEvent.scanARP :: rest => workIsGuarded rest
  | LoopEvent.check _ :: rest => workIsGuarded rest
  | _ => False

/-- The map `std::map<std::string, std::string> arps` that
`ComputerWork::ScanARP` fills from the operating system's ARP table (lines
705-775): its entries (address, MAC) in iteration order. -/
abbrev ArpTable := List (String × String)

/-- The lookup `arps.find(it)` followed by `arps[it]`: the MAC recorded for the
address `ip`, if there is an entry. -/
def arpFind (arps : ArpTable) (ip : String) : Option String :=
  match arps with
  | [] => none
  | e :: rest => if e.1 = ip then some e.2 else arpFind rest ip

/-- The first loop of `ComputerWork::ScanARP` (lines 777-788) over the hosts
that `WorkManager::GetFound` returned, with `_macsDone` as it stands: a host
with an ARP entry whose MAC is not in `_macsDone` gets a `MACWork` through
`AddWork`, and the MAC is pushed on `_macsDone`.  The result is the calls made
and `_macsDone` after the loop. -/
def scanFound (arps : ArpTable) : List String → List String → List Call × List String
  | [], macsDone => ([], macsDone)
  | it :: rest, macsDone =>
    match arpFind arps it with
    | none => scanFound arps rest macsDone
    | some mac =>
      if mac ∈ macsDone then scanFound arps rest macsDone
      else
        let r := scanFound arps rest (macsDone ++ [mac])
        (Call.addWork (Work.mac it mac) :: r.1, r.2)

/-- The loops of `ComputerWork::ScanARP` (lines 777-792) for the ARP table
`arps` and the found hosts `found`: the first loop, then `AddIP(it.first,
"ARP")` for every entry of the table, the proxy argument being left to its
default, the empty string.  The result is the calls made on the manager and
`_macsDone` after the pass. -/
def ComputerWork.ScanARP (arps : ArpTable) (found : List String) (macsDone : List String) :
    List Call × List String :=
  let r := scanFound arps found macsDone
  (r.1 ++ arps.map (fun e => Call.addIP e.1 "ARP" ""), r.2)

/-- What one pass of `ScanARP` meets: the ARP table read and the hosts found
so far. -/
structure ArpPass where
  arps : ArpTable
  found : List String
  deriving DecidableEq, Repr

/-- The passes of `ScanARP` made by one local-machine probe, in order: the
calls of all passes and `_macsDone` at the end. -/
def scanARPPasses : List ArpPass → List String → List Call × List String
  | [], macsDone => ([], macsDone)
  | p :: rest, macsDone =>
    let a := ComputerWork.ScanARP p.arps p.found macsDone
    let r := scanARPPasses rest a.2
    (a.1 ++ r.1, r.2)

/-- The MAC addresses of the `MACWork` items that a sequence of calls hands to
`AddWork`, in order. -/
def spawnedMacs : List Call → List String
  | [] => []
  | Call.addWork (Work.mac _ mac) :: rest => mac :: spawnedMacs rest
  | _ :: rest => spawnedMacs rest

/-- One element of the array that an FPP device returns for
`/api/network/interface`, as `FPPWork::DoWork` reads it (lines 377-379): the
fields `operstate`, `addr_info[0].local` and `addr_info[0].label`, each the
empty string when absent. -/
structure FPPInterface where
  operstate : String
  iip : String
  label : String
  deriving DecidableEq, Repr

/-- One element of the array returned for `/api/network/wifi/strength`, as
read at lines 386-388: the fields `interface` and `level`. -/
structure WifiLevel where
  iface : String
  level : Int
  deriving DecidableEq, Repr

/-- What an FPP device answers to the fetches of `FPPWork::DoWork`: for each
fetch the text `Curl::HTTPSGet` returns (empty when the fetch fails) and what
the JSON reader makes of it, `none` when `Parse` fails or the value read is
not of the expected kind.  `proxyList` holds `some p` for a string element `p`
of the proxies array; `coInterface` is `some (some i)` when `channelOutputs` is
an array whose first element is enabled, with interface `i`.  A signal-strength
reply that parses to something other than an array is left out: the code
dereferences a null pointer on it. -/
structure FPPReplies where
  netconfig : String
  net : Option (List FPPInterface)
  wificonfig : String
  wifi : Option (List WifiLevel)
  proxies : String
  proxyList : Option (List (Option String))
  version : String
  versionField : Option String
  co : String
  coInterface : Option (Option String)
  status : String
  modeName : Option String
  multisync : String
  systems : Option (List String)
  deriving DecidableEq, Repr

/-- The test `s[0] == c` on a reply that is known not to be empty. -/
def startsWith (s : String) (c : Char) : Bool :=
  s.data.head? = some c

/-- The text `wifiStrength` built at lines 381-393 for an interface `label`:
empty unless the label starts with `w`, the signal-strength reply parsed and
has an element for this interface; `DecodeWifiStrength` is the helper of that
name, which is not among the sources. -/
def fppWifiStrength (DecodeWifiStrength : Int → String) (wifi : Option (List WifiLevel))
    (label : String) : String :=
  if startsWith label 'w' then
    match wifi with
    | some w =>
      match w.find? (fun ww => ww.iface = label) with
      | some ww => " (" ++ fmtD ww.level ++ " - " ++ DecodeWifiStrength ww.level ++ ")"
      | none => ""
    | none => ""
  else ""

/-- The loop over the interface array (lines 374-397), entered with the
counter `ii`: the record entries pushed and the calls made, in order. -/
def fppInterfaces (DecodeWifiStrength : Int → String) (wifi : Option (List WifiLevel)) :
    List FPPInterface → Int → Record × List Call
  | [], _ => ([], [])
  | n :: rest, ii =>
    if n.operstate = "UP" ∧ n.iip ≠ "" ∧ n.label ≠ "" then
      let r := fppInterfaces DecodeWifiStrength wifi rest (ii + 1)
      (("IP " ++ fmtD ii,
          n.label ++ " : " ++ n.iip ++ " " ++ fppWifiStrength DecodeWifiStrength wifi n.label)
        :: r.1,
       Call.addIP n.iip "" "" :: r.2)
    else fppInterfaces DecodeWifiStrength wifi rest ii

/-- The loop over the proxies array (lines 412-425) of the probe of `ip`,
entered with the counter `c`: the record entries pushed and the calls made. -/
def fppProxies (ip : String) : List (Option String) → Int → Record × List Call
  | [], _ => ([], [])
  | none :: rest, c => fppProxies ip rest c
  | some p :: rest, c =>
    let r := fppProxies ip rest (c + 1)
    (("Proxying " ++ fmtD c, p) :: r.1,
     [Call.addIP p "FPP Proxied" ip, Call.addClassDSubnet p ip] ++
       ScanWork.publishCalls [("Type", "Proxied"), ("IP", p), ("Proxied By", ip)] ++ r.2)

/-- The calls `FPPWork::DoWork` (lines 338-489) makes on the manager, in
order, for the probe of `ip` and the device's replies; the probe's proxy only
enters the addresses fetched.  The interface array is read inside the test
`wificonfig != ""` of line 360. -/
def FPPWork.calls (DecodeWifiStrength : Int → String) (ip : String) (rep : FPPReplies) :
    List Call :=
  if rep.netconfig ≠ "" ∧ Contains rep.netconfig "operstate" then
    let interfaces : Record × List Call :=
      if rep.wificonfig ≠ "" then
        match rep.net with
        | some net => fppInterfaces DecodeWifiStrength rep.wifi net 1
        | none => ([], [])
      else ([], [])
    let proxied : Record × List Call :=
      if rep.proxies ≠ "" ∧ rep.proxies ≠ "[]" then
        match rep.proxyList with
        | some ps => fppProxies ip ps 1
        | none => ([], [])
      else ([], [])
    let version : Record :=
      if rep.version ≠ "" ∧ startsWith rep.version (Char.ofNat 123) then
        match rep.versionField with
        | some v => [("Version", v)]
        | none => []
      else []
    let sending : Record :=
      if rep.co ≠ "" ∧ startsWith rep.co (Char.ofNat 123) then
        match rep.coInterface with
        | some (some i) => [("Sending Data", i)]
        | _ => []
      else []
    let mode : Record :=
      if rep.status ≠ "" ∧ startsWith rep.status (Char.ofNat 123) then
        match rep.modeName with
        | some m => [("Mode", m)]
        | none => []
      else []
    let multisync : List Call :=
      if rep.multisync ≠ "" ∧ startsWith rep.multisync (Char.ofNat 123) then
        match rep.systems with
        | some sys => sys.map (fun address => Call.addIP address "FPP Multisync" "")
        | none => []
      else []
    interfaces.2 ++ proxied.2 ++ multisync ++
      ScanWork.publishCalls
        ([("IP", ip), ("Type", "FPP")] ++ interfaces.1 ++ proxied.1 ++ version ++ sending ++ mode)
  else []

/-- The method `FPPWork::DoWork` (lines 338-489): its calls made on the
manager. -/
def FPPWork.DoWork (DecodeWifiStrength : Int → String) (wm : WorkManager) (ip : String)
    (rep : FPPReplies) : WorkManager :=
  wm.run (FPPWork.calls DecodeWifiStrength ip rep)

/-- The replies of a device that answers only the interface listing, with the
array `net`, and the signal-strength fetch, with the text `wificonfig` parsed
as `wifi`; every other fetch returns nothing. -/
def fppRepliesOf (net : List FPPInterface) (wificonfig : String)
    (wifi : Option (List WifiLevel)) : FPPReplies :=
  { netconfig := "[ operstate ]", net := some net, wificonfig := wificonfig, wifi := wifi,
    proxies := "", proxyList := none, version := "", versionField := none,
    co := "", coInterface := none, status := "", modeName := none,
    multisync := "", systems := none }

/-! ## The result merge of `ScanWork::PublishResult` -/

theorem keyFound_iff (key : String) (out : Record) :
    keyFound key out = true ↔ key ∈ out.map Prod.fst := by
  induction out with
  | nil => simp [keyFound]
  | cons it2 rest ih =>
    by_cases h : it2.1 = key
    · simp [keyFound, h]
    · have h2 : ¬ key = it2.1 := fun e => h e.symm
      simp [keyFound, h, h2, ih]

theorem mergeLoop_append (a b out : Record) :
    mergeLoop (a ++ b) out = mergeLoop b (mergeLoop a out) := by
  induction a generalizing out with
  | nil => rfl
  | cons it rest ih => simp [mergeLoop, ih]

theorem mergedRecord_nil : mergedRecord [] = [] := rfl

theorem mergedRecord_cons_aux (p : String × String) (rest : Record) :
    mergedRecord (p :: rest) =
      if p.1 ∈ (mergedRecord rest).map Prod.fst then mergedRecord rest
      else p :: mergedRecord rest := by
  unfold mergedRecord
  rw [List.reverse_cons, mergeLoop_append]
  simp only [mergeLoop]
  by_cases h : keyFound p.1 (mergeLoop rest.reverse []) = true
  · rw [if_pos h, if_pos ((keyFound_iff _ _).1 h)]
  · rw [if_neg h, if_neg (fun h2 => h ((keyFound_iff _ _).2 h2))]

theorem mergedRecord_keys (result : Record) :
    ∀ k : String, k ∈ (mergedRecord result).map Prod.fst ↔ k ∈ result.map Prod.fst := by
  induction result with
  | nil => simp [mergedRecord_nil]
  | cons p rest ih =>
    intro k
    rw [mergedRecord_cons_aux]
    by_cases h : p.1 ∈ (mergedRecord rest).map Prod.fst
    · rw [if_pos h, ih, List.map_cons, List.mem_cons]
      constructor
      · exact Or.inr
      · rintro (e | e)
        · rw [e]; exact (ih p.1).1 h
        · exact e
    · rw [if_neg h, List.map_cons, List.mem_cons, List.map_cons, List.mem_cons, ih]

theorem mergedRecord_cons (p : String × String) (rest : Record) :
    mergedRecord (p :: rest) =
      if p.1 ∈ rest.map Prod.fst then mergedRecord rest else p :: mergedRecord rest := by
  rw [mergedRecord_cons_aux]
  by_cases h : p.1 ∈ rest.map Prod.fst
  · rw [if_pos h, if_pos ((mergedRecord_keys rest p.1).2 h)]
  · rw [if_neg h, if_neg (fun h2 => h ((mergedRecord_keys rest p.1).1 h2))]

theorem mergedRecord_keys_nodup (result : Record) :
    ((mergedRecord result).map Prod.fst).Nodup := by
  induction result with
  | nil => simp [mergedRecord_nil]
  | cons p rest ih =>
    rw [mergedRecord_cons]
    by_cases h : p.1 ∈ rest.map Prod.fst
    · rw [if_pos h]; exact ih
    · rw [if_neg h, List.map_cons, List.nodup_cons]
      exact ⟨fun h2 => h ((mergedRecord_keys rest p.1).1 h2), ih⟩

theorem mem_mergedRecord_of_last (pre post : Record) (p : String × String)
    (hlast : p.1 ∉ post.map Prod.fst) : p ∈ mergedRecord (pre ++ p :: post) := by
  induction pre with
  | nil =>
    rw [List.nil_append, mergedRecord_cons, if_neg hlast]
    exact List.mem_cons_self _ _
  | cons a pre ih =>
    rw [List.cons_append, mergedRecord_cons]
    by_cases h : a.1 ∈ (pre ++ p :: post).map Prod.fst
    · rw [if_pos h]; exact ih
    · rw [if_neg h]; exact List.mem_cons_of_mem _ ih

theorem last_of_mem_mergedRecord (result : Record) (p : String × String)
    (hp : p ∈ mergedRecord result) :
    ∃ pre post, result = pre ++ p :: post ∧ p.1 ∉ post.map Prod.fst := by
  induction result with
  | nil => simp [mergedRecord_nil] at hp
  | cons a rest ih =>
    rw [mergedRecord_cons] at hp
    by_cases h : a.1 ∈ rest.map Prod.fst
    · rw [if_pos h] at hp
      obtain ⟨pre, post, e, hn⟩ := ih hp
      exact ⟨a :: pre, post, by rw [e, List.cons_append], hn⟩
    · rw [if_neg h, List.mem_cons] at hp
      rcases hp with e | hp
      · subst e
        exact ⟨[], rest, rfl, h⟩
      · obtain ⟨pre, post, e, hn⟩ := ih hp
        exact ⟨a :: pre, post, by rw [e, List.cons_append], hn⟩

theorem publishResult_nonempty (wm : WorkManager) (result : Record) (h : result ≠ []) :
    ScanWork.PublishResult wm result =
      { wm with published := wm.published ++ [mergedRecord result] } := by
  unfold ScanWork.PublishResult WorkManager.PublishResult
  rw [if_neg (fun e => h (List.length_eq_zero.1 e))]

/-- C1: whenever the key `k` occurs in the input and `(k, v)` is its last
occurrence (no later pair has the key `k`), `ScanWork::PublishResult` forwards
exactly one list to the sink, and in that list the key `k` is paired with `v`
and with no other value. -/
theorem C1_publishResult_last_value_wins (wm : WorkManager) (pre post : Record)
    (k v : String) (hlast : ∀ p ∈ post, p.1 ≠ k) :
    ∃ out, (ScanWork.PublishResult wm (pre ++ (k, v) :: post)).published =
        wm.published ++ [out] ∧
      (k, v) ∈ out ∧ ∀ w, (k, w) ∈ out → w = v := by
  have hk : ((k, v) : String × String).1 ∉ post.map Prod.fst := by
    intro hmem
    obtain ⟨p, hp, e⟩ := List.mem_map.1 hmem
    exact hlast p hp e
  refine ⟨mergedRecord (pre ++ (k, v) :: post), ?_, mem_mergedRecord_of_last pre post (k, v) hk, ?_⟩
  · rw [publishResult_nonempty wm _ (by simp)]
  · intro w hw
    have hinj := List.inj_on_of_nodup_map (mergedRecord_keys_nodup (pre ++ (k, v) :: post))
      hw (mem_mergedRecord_of_last pre post (k, v) hk) rfl
    exact congrArg Prod.snd hinj

/-- C1 at the input `[(K,1),(J,x),(K,2)]`: the last occurrence of `K` carries
the value 2. -/
theorem C1_publishResult_last_value_wins_witness :
    ∃ out, (ScanWork.PublishResult {} ([("K", "1"), ("J", "x")] ++ ("K", "2") :: [])).published =
        ({} : WorkManager).published ++ [out] ∧
      ("K", "2") ∈ out ∧ ∀ w, ("K", w) ∈ out → w = "2" :=
  C1_publishResult_last_value_wins {} [("K", "1"), ("J", "x")] [] "K" "2" (by simp)

theorem mergedRecord_pairwise_last (result : Record) :
    List.Pairwise (fun a b => ∃ r1 r2 r3 : Record, result = r1 ++ a :: (r2 ++ b :: r3) ∧
      a.1 ∉ (r2 ++ b :: r3).map Prod.fst ∧ b.1 ∉ r3.map Prod.fst) (mergedRecord result) := by
  induction result with
  | nil => simp [mergedRecord_nil]
  | cons p rest ih =>
    have hmono : List.Pairwise (fun a b => ∃ r1 r2 r3 : Record,
        p :: rest = r1 ++ a :: (r2 ++ b :: r3) ∧
        a.1 ∉ (r2 ++ b :: r3).map Prod.fst ∧ b.1 ∉ r3.map Prod.fst) (mergedRecord rest) := by
      refine List.Pairwise.imp ?_ ih
      rintro a b ⟨r1, r2, r3, e, ha, hb⟩
      exact ⟨p :: r1, r2, r3, by rw [e, List.cons_append], ha, hb⟩
    rw [mergedRecord_cons]
    by_cases h : p.1 ∈ rest.map Prod.fst
    · rw [if_pos h]; exact hmono
    · rw [if_neg h, List.pairwise_cons]
      refine ⟨?_, hmono⟩
      intro b hb
      obtain ⟨r2, r3, e, hn⟩ := last_of_mem_mergedRecord rest b hb
      exact ⟨[], r2, r3, by rw [e, List.nil_append], by rw [← e]; exact h, hn⟩

/-- C2, as the claim states it, fails: on the input `[(K,1),(J,x),(K,2)]` the
first occurrence of `K` precedes that of `J`, yet the list forwarded is
`[(J,x),(K,2)]` and not `[(K,2),(J,x)]`. -/
theorem C2_first_occurrence_order_counterexample :
    (ScanWork.PublishResult {} [("K", "1"), ("J", "x"), ("K", "2")]).published =
        [[("J", "x"), ("K", "2")]] ∧
      (ScanWork.PublishResult {} [("K", "1"), ("J", "x"), ("K", "2")]).published ≠
        [[("K", "2"), ("J", "x")]] := by
  decide

/-- C2, amended: for a non-empty input, the list `ScanWork::PublishResult`
forwards orders its entries by the position of each key's LAST occurrence in
the input: whenever `a` stands before `b` in the forwarded list, the input
holds `a` at the last occurrence of `a`'s key, and `b` later, at the last
occurrence of `b`'s key.  The input `[(K,1),(J,x),(K,2)]` is forwarded as
`[(J,x),(K,2)]`. -/
theorem C2_publishResult_orders_by_last_occurrence (wm : WorkManager) (result : Record)
    (h : result ≠ []) :
    (∃ out, (ScanWork.PublishResult wm result).published = wm.published ++ [out] ∧
      List.Pairwise (fun a b => ∃ r1 r2 r3 : Record, result = r1 ++ a :: (r2 ++ b :: r3) ∧
        a.1 ∉ (r2 ++ b :: r3).map Prod.fst ∧ b.1 ∉ r3.map Prod.fst) out) ∧
    (ScanWork.PublishResult wm [("K", "1"), ("J", "x"), ("K", "2")]).published =
      wm.published ++ [[("J", "x"), ("K", "2")]] := by
  refine ⟨⟨mergedRecord result, ?_, mergedRecord_pairwise_last result⟩, ?_⟩
  · rw [publishResult_nonempty wm result h]
  · rw [publishResult_nonempty wm _ (by simp)]
    have e : mergedRecord [("K", "1"), ("J", "x"), ("K", "2")] = [("J", "x"), ("K", "2")] := by
      decide
    rw [e]

/-- C2 amended, at the input `[(K,1),(J,x),(K,2)]` on a fresh manager. -/
theorem C2_publishResult_orders_by_last_occurrence_witness :
    (∃ out, (ScanWork.PublishResult {} [("K", "1"), ("J", "x"), ("K", "2")]).published =
        ({} : WorkManager).published ++ [out] ∧
      List.Pairwise (fun a b => ∃ r1 r2 r3 : Record,
        [("K", "1"), ("J", "x"), ("K", "2")] = r1 ++ a :: (r2 ++ b :: r3) ∧
        a.1 ∉ (r2 ++ b :: r3).map Prod.fst ∧ b.1 ∉ r3.map Prod.fst) out) ∧
    (ScanWork.PublishResult {} [("K", "1"), ("J", "x"), ("K", "2")]).published =
      ({} : WorkManager).published ++ [[("J", "x"), ("K", "2")]] :=
  C2_publishResult_orders_by_last_occurrence {} [("K", "1"), ("J", "x"), ("K", "2")] (by simp)

/-- C3: for a non-empty input, the list `ScanWork::PublishResult` forwards
holds every key of the input exactly once and no key that the input lacks. -/
theorem C3_publishResult_keys_exactly_once (wm : WorkManager) (result : Record)
    (h : result ≠ []) :
    ∃ out, (ScanWork.PublishResult wm result).published = wm.published ++ [out] ∧
      (∀ k ∈ result.map Prod.fst, (out.map Prod.fst).count k = 1) ∧
      (∀ k ∈ out.map Prod.fst, k ∈ result.map Prod.fst) := by
  refine ⟨mergedRecord result, ?_, ?_, ?_⟩
  · rw [publishResult_nonempty wm result h]
  · intro k hk
    exact List.count_eq_one_of_mem (mergedRecord_keys_nodup result)
      ((mergedRecord_keys result k).2 hk)
  · intro k hk
    exact (mergedRecord_keys result k).1 hk

/-- C3 at the input `[(K,1),(J,x),(K,2)]` on a fresh manager. -/
theorem C3_publishResult_keys_exactly_once_witness :
    ∃ out, (ScanWork.PublishResult {} [("K", "1"), ("J", "x"), ("K", "2")]).published =
        ({} : WorkManager).published ++ [out] ∧
      (∀ k ∈ [("K", "1"), ("J", "x"), ("K", "2")].map Prod.fst,
        (out.map Prod.fst).count k = 1) ∧
      (∀ k ∈ out.map Prod.fst, k ∈ [("K", "1"), ("J", "x"), ("K", "2")].map Prod.fst) :=
  C3_publishResult_keys_exactly_once {} [("K", "1"), ("J", "x"), ("K", "2")] (by simp)

/-- C4: on an empty input `ScanWork::PublishResult` leaves the manager, and so
the sink, as it was; on a non-empty input it appends exactly one list to what
the sink has received and changes nothing else. -/
theorem C4_publishResult_empty_noop_else_one (wm : WorkManager) :
    ScanWork.PublishResult wm [] = wm ∧
    ∀ result : Record, result ≠ [] →
      ∃ out, ScanWork.PublishResult wm result =
        { wm with published := wm.published ++ [out] } ∧
        (ScanWork.PublishResult wm result).published.length = wm.published.length + 1 := by
  refine ⟨rfl, ?_⟩
  intro result h
  refine ⟨mergedRecord result, publishResult_nonempty wm result h, ?_⟩
  rw [publishResult_nonempty wm result h]
  simp

/-- C4 on a fresh manager, with the one-pair input `[(K,1)]`. -/
theorem C4_publishResult_empty_noop_else_one_witness :
    ScanWork.PublishResult {} [] = ({} : WorkManager) ∧
    ∃ out, ScanWork.PublishResult {} [("K", "1")] =
        { ({} : WorkManager) with published := ({} : WorkManager).published ++ [out] } ∧
      (ScanWork.PublishResult {} [("K", "1")]).published.length =
        ({} : WorkManager).published.length + 1 :=
  ⟨(C4_publishResult_empty_noop_else_one {}).1,
   (C4_publishResult_empty_noop_else_one {}).2 [("K", "1")] (by simp)⟩

/-! ## The dedup sets of `WorkManager` -/

/-- C5: a second `AddIP` for the same address, whatever its reason and proxy,
leaves the whole manager as the first call left it; the first call appends the
address to the scanned set and one probe, with its own reason and proxy, to the
ping queue when the address was not scanned before, and nothing otherwise. -/
theorem C5_addIP_same_ip_idempotent (wm : WorkManager)
    (ip why1 proxy1 why2 proxy2 : String) :
    (wm.AddIP ip why1 proxy1).AddIP ip why2 proxy2 = wm.AddIP ip why1 proxy1 ∧
    (wm.AddIP ip why1 proxy1).queuePing =
      (if ip ∈ wm.scannedIP then wm.queuePing
       else wm.queuePing ++ [Work.ping ip why1 proxy1]) ∧
    (wm.AddIP ip why1 proxy1).scannedIP =
      (if ip ∈ wm.scannedIP then wm.scannedIP else wm.scannedIP ++ [ip]) := by
  by_cases h : ip ∈ wm.scannedIP
  · simp [WorkManager.AddIP, h]
  · simp [WorkManager.AddIP, h]

theorem httpKey_data (ip proxy : String) (port : Int) :
    (httpKey ip proxy port).data =
      (cstr ip).data ++ ':' :: ((cstr proxy).data ++ ':' :: (fmtD port).data) := by
  simp [httpKey, String.data_append]

theorem cstr_of_no_nul (s : String) (h : Char.ofNat 0 ∉ s.data) : cstr s = s := by
  unfold cstr
  apply String.ext
  apply List.takeWhile_eq_self_iff.2
  intro c hc
  exact decide_eq_true (fun e => h (e ▸ hc))

theorem httpKey_proxy_injective (ip proxyA proxyB : String) (port : Int)
    (h : httpKey ip proxyA port = httpKey ip proxyB port) : cstr proxyA = cstr proxyB := by
  have h2 := String.ext_iff.1 h
  rw [httpKey_data, httpKey_data] at h2
  have h3 := List.cons.inj (List.append_cancel_left h2)
  exact String.ext (List.append_cancel_right h3.2)

theorem addHTTP_seen (wm : WorkManager) (ip : String) (port : Int) (proxy : String)
    (h : httpKey ip proxy port ∈ wm.scannedHTTP) : wm.AddHTTP ip port proxy = wm := by
  simp [WorkManager.AddHTTP, h]

theorem addHTTP_fresh (wm : WorkManager) (ip : String) (port : Int) (proxy : String)
    (h : httpKey ip proxy port ∉ wm.scannedHTTP) :
    wm.AddHTTP ip port proxy =
      { wm with scannedHTTP := wm.scannedHTTP ++ [httpKey ip proxy port],
                queueMain := wm.queueMain ++ [Work.http ip port proxy] } := by
  simp [WorkManager.AddHTTP, h]

/-- C6, as the claim states it, fails for proxies that differ only after a
NUL character: on a fresh manager, `p` and `p` followed by NUL and `q` are two
different proxy strings, neither key has been seen, both calls format to the
key `10.0.0.7:p:80`, and the second call enqueues nothing. -/
theorem C6_proxies_differing_after_nul_counterexample :
    "p" ≠ String.mk ['p', Char.ofNat 0, 'q'] ∧
    httpKey "10.0.0.7" "p" 80 ∉ ({} : WorkManager).scannedHTTP ∧
    httpKey "10.0.0.7" (String.mk ['p', Char.ofNat 0, 'q']) 80 ∉
      ({} : WorkManager).scannedHTTP ∧
    httpKey "10.0.0.7" (String.mk ['p', Char.ofNat 0, 'q']) 80 = "10.0.0.7:p:80" ∧
    httpKey "10.0.0.7" "p" 80 = "10.0.0.7:p:80" ∧
    ((({} : WorkManager).AddHTTP "10.0.0.7" 80 "p").AddHTTP "10.0.0.7" 80
        (String.mk ['p', Char.ofNat 0, 'q'])).queueMain =
      [Work.http "10.0.0.7" 80 "p"] := by
  decide

/-- C6, amended: on a manager that has seen neither key, `AddHTTP(ip,80,proxyA)`
and then `AddHTTP(ip,80,proxyB)`, for proxies that differ in the part before
their first NUL character (any two different proxies without a NUL do), append
two HTTP probes to the main queue, and repeating either call afterwards
changes nothing in the manager. -/
theorem C6_addHTTP_two_proxies_both_enqueue (wm : WorkManager) (ip proxyA proxyB : String)
    (hA : httpKey ip proxyA 80 ∉ wm.scannedHTTP)
    (hB : httpKey ip proxyB 80 ∉ wm.scannedHTTP)
    (hne : cstr proxyA ≠ cstr proxyB) :
    ((wm.AddHTTP ip 80 proxyA).AddHTTP ip 80 proxyB).queueMain =
      wm.queueMain ++ [Work.http ip 80 proxyA, Work.http ip 80 proxyB] ∧
    ((wm.AddHTTP ip 80 proxyA).AddHTTP ip 80 proxyB).scannedHTTP =
      wm.scannedHTTP ++ [httpKey ip proxyA 80, httpKey ip proxyB 80] ∧
    ((wm.AddHTTP ip 80 proxyA).AddHTTP ip 80 proxyB).AddHTTP ip 80 proxyA =
      (wm.AddHTTP ip 80 proxyA).AddHTTP ip 80 proxyB ∧
    ((wm.AddHTTP ip 80 proxyA).AddHTTP ip 80 proxyB).AddHTTP ip 80 proxyB =
      (wm.AddHTTP ip 80 proxyA).AddHTTP ip 80 proxyB := by
  have hkey : httpKey ip proxyB 80 ≠ httpKey ip proxyA 80 :=
    fun e => hne (httpKey_proxy_injective ip proxyA proxyB 80 e.symm)
  rw [addHTTP_fresh wm ip 80 proxyA hA]
  rw [addHTTP_fresh _ ip 80 proxyB (by simp [hB, hkey])]
  refine ⟨by simp, by simp, ?_, ?_⟩
  · exact addHTTP_seen _ ip 80 proxyA (by simp)
  · exact addHTTP_seen _ ip 80 proxyB (by simp)

/-- C6 amended, on a fresh manager, for the address 10.0.0.7 with no proxy and
with the proxy 10.0.0.9, two different strings without a NUL. -/
theorem C6_addHTTP_two_proxies_both_enqueue_witness :
    (cstr "" = "" ∧ cstr "10.0.0.9" = "10.0.0.9") ∧
    (((({} : WorkManager).AddHTTP "10.0.0.7" 80 "").AddHTTP "10.0.0.7" 80 "10.0.0.9").queueMain =
      ({} : WorkManager).queueMain ++
        [Work.http "10.0.0.7" 80 "", Work.http "10.0.0.7" 80 "10.0.0.9"]) ∧
    (((({} : WorkManager).AddHTTP "10.0.0.7" 80 "").AddHTTP "10.0.0.7" 80 "10.0.0.9").scannedHTTP =
      ({} : WorkManager).scannedHTTP ++
        [httpKey "10.0.0.7" "" 80, httpKey "10.0.0.7" "10.0.0.9" 80]) ∧
    ((({} : WorkManager).AddHTTP "10.0.0.7" 80 "").AddHTTP "10.0.0.7" 80 "10.0.0.9").AddHTTP
        "10.0.0.7" 80 "" =
      (({} : WorkManager).AddHTTP "10.0.0.7" 80 "").AddHTTP "10.0.0.7" 80 "10.0.0.9" ∧
    ((({} : WorkManager).AddHTTP "10.0.0.7" 80 "").AddHTTP "10.0.0.7" 80 "10.0.0.9").AddHTTP
        "10.0.0.7" 80 "10.0.0.9" =
      (({} : WorkManager).AddHTTP "10.0.0.7" 80 "").AddHTTP "10.0.0.7" 80 "10.0.0.9" :=
  ⟨by decide,
   C6_addHTTP_two_proxies_both_enqueue {} "10.0.0.7" "" "10.0.0.9"
     (by decide) (by decide) (by decide)⟩

/-! ## Formatting and parsing of decimal numbers -/

theorem digitChar_mem (n : Nat) (h : n < 10) : Nat.digitChar n ∈ "0123456789".data := by
  interval_cases n <;> decide

theorem digitChar_value (n : Nat) (h : n < 10) : (Nat.digitChar n).toNat - 48 = n := by
  interval_cases n <;> decide

theorem digit_props (c : Char) (hc : c ∈ "0123456789".data) :
    c.isDigit = true ∧ isspace c = false ∧ c ≠ '-' ∧ c ≠ '+' ∧ c ≠ ':' ∧ c ≠ '.' ∧
      c ≠ Char.ofNat 92 := by
  simp only [List.mem_cons, List.mem_singleton, List.not_mem_nil, or_false] at hc
  rcases hc with rfl | rfl | rfl | rfl | rfl | rfl | rfl | rfl | rfl | rfl <;> decide

theorem fmtDigits_mem (fuel : Nat) : ∀ (n : Nat) (c : Char), c ∈ fmtDigits fuel n →
    c ∈ "0123456789".data := by
  induction fuel with
  | zero => intro n c hc; simp [fmtDigits] at hc
  | succ fuel ih =>
    intro n c hc
    unfold fmtDigits at hc
    by_cases h : n < 10
    · rw [if_pos h, List.mem_singleton] at hc
      rw [hc]; exact digitChar_mem n h
    · rw [if_neg h, List.mem_append, List.mem_singleton] at hc
      rcases hc with hc | hc
      · exact ih _ c hc
      · rw [hc]; exact digitChar_mem _ (Nat.mod_lt _ (by decide))

theorem fmtDigits_ne_nil (fuel n : Nat) : fmtDigits (fuel + 1) n ≠ [] := by
  unfold fmtDigits
  by_cases h : n < 10
  · rw [if_pos h]; simp
  · rw [if_neg h]; simp

theorem atoiDigits_append_digit (ds : List Char) : ∀ (acc : Nat) (d : Char),
    (∀ c ∈ ds, c.isDigit = true) → d.isDigit = true →
    atoiDigits acc (ds ++ [d]) = atoiDigits acc ds * 10 + (d.toNat - 48) := by
  induction ds with
  | nil => intro acc d _ hd; simp [atoiDigits, hd]
  | cons c ds ih =>
    intro acc d hds hd
    have hc : c.isDigit = true := hds c (List.mem_cons_self _ _)
    simp only [List.cons_append, atoiDigits, hc, if_true]
    exact ih _ d (fun x hx => hds x (List.mem_cons_of_mem _ hx)) hd

theorem atoiDigits_fmtDigits (fuel : Nat) : ∀ n : Nat, n < fuel →
    atoiDigits 0 (fmtDigits fuel n) = n := by
  induction fuel with
  | zero => intro n h; omega
  | succ fuel ih =>
    intro n hn
    unfold fmtDigits
    by_cases h : n < 10
    · rw [if_pos h]
      simp [atoiDigits, (digit_props _ (digitChar_mem n h)).1, digitChar_value n h]
    · rw [if_neg h]
      have hlt : n % 10 < 10 := Nat.mod_lt _ (by decide)
      rw [atoiDigits_append_digit _ 0 _
        (fun c hc => (digit_props c (fmtDigits_mem fuel _ c hc)).1)
        (digit_props _ (digitChar_mem _ hlt)).1,
        ih (n / 10) (by omega), digitChar_value _ hlt]
      omega

theorem fmtD_chars (n : Int) (c : Char) (hc : c ∈ (fmtD n).data) :
    c ≠ ':' ∧ c ≠ '.' ∧ c ≠ Char.ofNat 92 := by
  cases n with
  | ofNat m =>
    have hp := digit_props c (fmtDigits_mem _ _ c hc)
    exact ⟨hp.2.2.2.2.1, hp.2.2.2.2.2.1, hp.2.2.2.2.2.2⟩
  | negSucc m =>
    change c ∈ '-' :: fmtDigits (m + 2) (m + 1) at hc
    rcases List.mem_cons.1 hc with rfl | hc
    · decide
    · have hp := digit_props c (fmtDigits_mem _ _ c hc)
      exact ⟨hp.2.2.2.2.1, hp.2.2.2.2.2.1, hp.2.2.2.2.2.2⟩

theorem wxAtoi_fmtD (n : Int) : wxAtoi (fmtD n) = n := by
  cases n with
  | ofNat m =>
    have hne := fmtDigits_ne_nil m m
    have hval := atoiDigits_fmtDigits (m + 1) m (Nat.lt_succ_self m)
    have hmem := fmtDigits_mem (m + 1) m
    unfold wxAtoi
    change (match (fmtDigits (m + 1) m).dropWhile isspace with
      | [] => (0 : Int)
      | c :: rest =>
        if c = '-' then - (atoiDigits 0 rest : Int)
        else if c = '+' then (atoiDigits 0 rest : Int)
        else (atoiDigits 0 (c :: rest) : Int)) = Int.ofNat m
    cases hds : fmtDigits (m + 1) m with
    | nil => exact absurd hds hne
    | cons c rest =>
      rw [hds] at hval hmem
      have hp := digit_props c (hmem c (List.mem_cons_self _ _))
      simp only [List.dropWhile, hp.2.1, if_neg hp.2.2.1, if_neg hp.2.2.2.1, hval]
      rfl
  | negSucc m =>
    have hval := atoiDigits_fmtDigits (m + 2) (m + 1) (Nat.lt_succ_self _)
    unfold wxAtoi
    change (match ('-' :: fmtDigits (m + 2) (m + 1)).dropWhile isspace with
      | [] => (0 : Int)
      | c :: rest =>
        if c = '-' then - (atoiDigits 0 rest : Int)
        else if c = '+' then (atoiDigits 0 rest : Int)
        else (atoiDigits 0 (c :: rest) : Int)) = Int.negSucc m
    have hsp : isspace '-' = false := by decide
    simp only [List.dropWhile, hsp, if_true, hval]
    rfl

theorem fmtD_injective (m n : Int) (h : fmtD m = fmtD n) : m = n := by
  rw [← wxAtoi_fmtD m, ← wxAtoi_fmtD n, h]

/-! ## The composite key of `AddHTTP` -/

theorem split_at_first {c : Char} (a : List Char) : ∀ (b x y : List Char),
    c ∉ a → c ∉ b → a ++ c :: x = b ++ c :: y → a = b ∧ x = y := by
  induction a with
  | nil =>
    intro b x y _ hb h
    cases b with
    | nil => exact ⟨rfl, (List.cons.inj h).2⟩
    | cons d b =>
      have hd := (List.cons.inj h).1
      exact absurd (List.mem_cons.2 (Or.inl hd)) hb
  | cons e a ih =>
    intro b x y ha hb h
    cases b with
    | nil =>
      have hd := (List.cons.inj h).1
      exact absurd (List.mem_cons.2 (Or.inl hd.symm)) ha
    | cons d b =>
      have hh := List.cons.inj h
      have hrec := ih b x y (fun hm => ha (List.mem_cons_of_mem _ hm))
        (fun hm => hb (List.mem_cons_of_mem _ hm)) hh.2
      exact ⟨by rw [hh.1, hrec.1], hrec.2⟩

theorem split_at_last {c : Char} (a b x y : List Char)
    (hx : c ∉ x) (hy : c ∉ y) (h : a ++ c :: x = b ++ c :: y) : a = b ∧ x = y := by
  have hr := congrArg List.reverse h
  simp only [List.reverse_append, List.reverse_cons, List.append_assoc,
    List.singleton_append] at hr
  have hs := split_at_first x.reverse y.reverse a.reverse b.reverse
    (by simpa using hx) (by simpa using hy) hr
  exact ⟨List.reverse_injective hs.2, List.reverse_injective hs.1⟩

theorem httpKey_injective (ip proxy : String) (port : Int) (ip2 proxy2 : String) (port2 : Int)
    (hip : ':' ∉ (cstr ip).data) (hip2 : ':' ∉ (cstr ip2).data)
    (h : httpKey ip proxy port = httpKey ip2 proxy2 port2) :
    cstr ip = cstr ip2 ∧ cstr proxy = cstr proxy2 ∧ port = port2 := by
  have h2 := String.ext_iff.1 h
  rw [httpKey_data, httpKey_data] at h2
  have h3 := split_at_first (cstr ip).data (cstr ip2).data _ _ hip hip2 h2
  have h4 := split_at_last (cstr proxy).data (cstr proxy2).data _ _
    (fun hm => (fmtD_chars port _ hm).1 rfl) (fun hm => (fmtD_chars port2 _ hm).1 rfl) h3.2
  exact ⟨String.ext h3.1, String.ext h4.1, fmtD_injective _ _ (String.ext h4.2)⟩

theorem httpKey_of_triple (c d : HTTPCall) (h : httpTriple c = httpTriple d) :
    httpKey c.1 c.2.2 c.2.1 = httpKey d.1 d.2.2 d.2.1 := by
  unfold httpTriple at h
  have h1 := (Prod.mk.inj h).1
  have h2 := (Prod.mk.inj (Prod.mk.inj h).2).1
  have h3 := (Prod.mk.inj (Prod.mk.inj h).2).2
  unfold httpKey
  rw [h1, h2, h3]

theorem httpTriple_of_no_nul (c : HTTPCall) (h1 : Char.ofNat 0 ∉ c.1.data)
    (h2 : Char.ofNat 0 ∉ c.2.2.data) : httpTriple c = c := by
  unfold httpTriple
  rw [cstr_of_no_nul c.1 h1, cstr_of_no_nul c.2.2 h2]

theorem addHTTPCalls_scanned (calls : List HTTPCall) : ∀ (wm : WorkManager) (k : String),
    k ∈ (addHTTPCalls wm calls).scannedHTTP ↔
      k ∈ wm.scannedHTTP ∨ ∃ c ∈ calls, httpKey c.1 c.2.2 c.2.1 = k := by
  induction calls with
  | nil => intro wm k; simp [addHTTPCalls]
  | cons c calls ih =>
    intro wm k
    have hstep : addHTTPCalls wm (c :: calls) =
        addHTTPCalls (wm.AddHTTP c.1 c.2.1 c.2.2) calls := rfl
    rw [hstep, ih]
    by_cases hseen : httpKey c.1 c.2.2 c.2.1 ∈ wm.scannedHTTP
    · rw [addHTTP_seen wm _ _ _ hseen]
      constructor
      · rintro (h | ⟨d, hd, e⟩)
        · exact Or.inl h
        · exact Or.inr ⟨d, List.mem_cons_of_mem _ hd, e⟩
      · rintro (h | ⟨d, hd, e⟩)
        · exact Or.inl h
        · rcases List.mem_cons.1 hd with rfl | hd
          · exact Or.inl (e ▸ hseen)
          · exact Or.inr ⟨d, hd, e⟩
    · rw [addHTTP_fresh wm _ _ _ hseen]
      constructor
      · rintro (h | ⟨d, hd, e⟩)
        · rcases List.mem_append.1 h with h | h
          · exact Or.inl h
          · exact Or.inr ⟨c, List.mem_cons_self _ _, (List.mem_singleton.1 h).symm⟩
        · exact Or.inr ⟨d, List.mem_cons_of_mem _ hd, e⟩
      · rintro (h | ⟨d, hd, e⟩)
        · exact Or.inl (List.mem_append.2 (Or.inl h))
        · rcases List.mem_cons.1 hd with rfl | hd
          · exact Or.inl (List.mem_append.2 (Or.inr (List.mem_singleton.2 e.symm)))
          · exact Or.inr ⟨d, hd, e⟩

/-- C7, as the claim states it, fails for arbitrary strings: after
`AddHTTP("a:b", 80, "")` on a fresh manager, the call `AddHTTP("a", 80, "b:")`
has a triple that no earlier call had, yet it formats to the same key
`a:b::80` and is suppressed.  The same happens, without any colon, after
`AddHTTP("a", 80, "p")` for the proxy `p` followed by NUL and `q`. -/
theorem C7_composite_key_counterexample :
    ((("a", 80, "b:") : HTTPCall) ∉ [(("a:b", 80, "") : HTTPCall)]) ∧
    httpKey "a" "b:" 80 = httpKey "a:b" "" 80 ∧
    (addHTTPCalls {} [("a:b", 80, "")]).AddHTTP "a" 80 "b:" =
      addHTTPCalls {} [("a:b", 80, "")] ∧
    ((("a", 80, String.mk ['p', Char.ofNat 0, 'q']) : HTTPCall) ∉
      [(("a", 80, "p") : HTTPCall)]) ∧
    (addHTTPCalls {} [("a", 80, "p")]).AddHTTP "a" 80 (String.mk ['p', Char.ofNat 0, 'q']) =
      addHTTPCalls {} [("a", 80, "p")] := by
  decide

/-- C7, amended: `AddHTTP` dedups on the formatted string `ip:proxy:port`, in
which `ip` and `proxy` appear up to their first NUL character.  When no `ip`
has a colon in that part (neither the call's nor those of the earlier calls,
made on a manager whose scanned-HTTP set began empty), a call enqueues its
HTTP probe, and records its key, exactly when no earlier call had the same
`ip` and `proxy`, each up to its first NUL, and the same port; otherwise it
changes nothing.  So when moreover no `ip` and no `proxy` contains a NUL, the
call enqueues exactly when no earlier call had the identical triple, and calls
whose triples differ in any component never suppress one another. -/
theorem C7_addHTTP_dedups_on_triple_without_colon (wm0 : WorkManager) (calls : List HTTPCall)
    (ip : String) (port : Int) (proxy : String)
    (h0 : wm0.scannedHTTP = [])
    (hcalls : ∀ c ∈ calls, ':' ∉ (cstr c.1).data) (hip : ':' ∉ (cstr ip).data) :
    ((addHTTPCalls wm0 calls).AddHTTP ip port proxy =
      if httpTriple (ip, port, proxy) ∈ calls.map httpTriple then addHTTPCalls wm0 calls
      else { addHTTPCalls wm0 calls with
              scannedHTTP := (addHTTPCalls wm0 calls).scannedHTTP ++ [httpKey ip proxy port],
              queueMain := (addHTTPCalls wm0 calls).queueMain ++ [Work.http ip port proxy] }) ∧
    ((∀ c ∈ calls, Char.ofNat 0 ∉ c.1.data ∧ Char.ofNat 0 ∉ c.2.2.data) →
      Char.ofNat 0 ∉ ip.data → Char.ofNat 0 ∉ proxy.data →
      (addHTTPCalls wm0 calls).AddHTTP ip port proxy =
        if ((ip, port, proxy) : HTTPCall) ∈ calls then addHTTPCalls wm0 calls
        else { addHTTPCalls wm0 calls with
                scannedHTTP := (addHTTPCalls wm0 calls).scannedHTTP ++ [httpKey ip proxy port],
                queueMain := (addHTTPCalls wm0 calls).queueMain ++ [Work.http ip port proxy] }) := by
  have hmain : (addHTTPCalls wm0 calls).AddHTTP ip port proxy =
      if httpTriple (ip, port, proxy) ∈ calls.map httpTriple then addHTTPCalls wm0 calls
      else { addHTTPCalls wm0 calls with
              scannedHTTP := (addHTTPCalls wm0 calls).scannedHTTP ++ [httpKey ip proxy port],
              queueMain := (addHTTPCalls wm0 calls).queueMain ++ [Work.http ip port proxy] } := by
    by_cases hmem : httpTriple (ip, port, proxy) ∈ calls.map httpTriple
    · rw [if_pos hmem]
      obtain ⟨c, hc, e⟩ := List.mem_map.1 hmem
      exact addHTTP_seen _ ip port proxy
        ((addHTTPCalls_scanned calls wm0 _).2
          (Or.inr ⟨c, hc, httpKey_of_triple c (ip, port, proxy) e⟩))
    · rw [if_neg hmem]
      apply addHTTP_fresh
      intro hk
      rcases (addHTTPCalls_scanned calls wm0 _).1 hk with h | ⟨c, hc, e⟩
      · rw [h0] at h; exact absurd h (List.not_mem_nil _)
      · obtain ⟨e1, e2, e3⟩ :=
          httpKey_injective c.1 c.2.2 c.2.1 ip proxy port (hcalls c hc) hip e
        apply hmem
        refine List.mem_map.2 ⟨c, hc, ?_⟩
        unfold httpTriple
        simp only
        rw [e1, e2, e3]
  refine ⟨hmain, ?_⟩
  intro hnul hipn hproxyn
  rw [hmain]
  have hself : httpTriple (ip, port, proxy) = (ip, port, proxy) :=
    httpTriple_of_no_nul (ip, port, proxy) hipn hproxyn
  by_cases hmem : ((ip, port, proxy) : HTTPCall) ∈ calls
  · rw [if_pos hmem, if_pos (List.mem_map.2 ⟨(ip, port, proxy), hmem, rfl⟩)]
  · rw [if_neg hmem, if_neg]
    intro hm
    obtain ⟨c, hc, e⟩ := List.mem_map.1 hm
    rw [httpTriple_of_no_nul c (hnul c hc).1 (hnul c hc).2, hself] at e
    exact hmem (e ▸ hc)

/-- C7 amended, on a fresh manager after `AddHTTP("10.0.0.7", 80, "")`: the
call `AddHTTP("10.0.0.7", 80, "10.0.0.9")` differs in the proxy; no string
has a colon or a NUL. -/
theorem C7_addHTTP_dedups_on_triple_without_colon_witness :
    ((addHTTPCalls {} [("10.0.0.7", 80, "")]).AddHTTP "10.0.0.7" 80 "10.0.0.9" =
      if httpTriple ("10.0.0.7", 80, "10.0.0.9") ∈
          [(("10.0.0.7", 80, "") : HTTPCall)].map httpTriple then
        addHTTPCalls {} [("10.0.0.7", 80, "")]
      else { addHTTPCalls {} [("10.0.0.7", 80, "")] with
              scannedHTTP := (addHTTPCalls {} [("10.0.0.7", 80, "")]).scannedHTTP ++
                [httpKey "10.0.0.7" "10.0.0.9" 80],
              queueMain := (addHTTPCalls {} [("10.0.0.7", 80, "")]).queueMain ++
                [Work.http "10.0.0.7" 80 "10.0.0.9"] }) ∧
    ((addHTTPCalls {} [("10.0.0.7", 80, "")]).AddHTTP "10.0.0.7" 80 "10.0.0.9" =
      if (("10.0.0.7", 80, "10.0.0.9") : HTTPCall) ∈ [(("10.0.0.7", 80, "") : HTTPCall)] then
        addHTTPCalls {} [("10.0.0.7", 80, "")]
      else { addHTTPCalls {} [("10.0.0.7", 80, "")] with
              scannedHTTP := (addHTTPCalls {} [("10.0.0.7", 80, "")]).scannedHTTP ++
                [httpKey "10.0.0.7" "10.0.0.9" 80],
              queueMain := (addHTTPCalls {} [("10.0.0.7", 80, "")]).queueMain ++
                [Work.http "10.0.0.7" 80 "10.0.0.9"] }) ∧
    (addHTTPCalls {} [("10.0.0.7", 80, "")]).AddHTTP "10.0.0.7" 80 "10.0.0.9" =
      { scannedHTTP := ["10.0.0.7::80", "10.0.0.7:10.0.0.9:80"],
        queueMain := [Work.http "10.0.0.7" 80 "", Work.http "10.0.0.7" 80 "10.0.0.9"] } :=
  ⟨(C7_addHTTP_dedups_on_triple_without_colon {} [("10.0.0.7", 80, "")] "10.0.0.7" 80
      "10.0.0.9" rfl (by decide) (by decide)).1,
   (C7_addHTTP_dedups_on_triple_without_colon {} [("10.0.0.7", 80, "")] "10.0.0.7" 80
      "10.0.0.9" rfl (by decide) (by decide)).2 (by decide) (by decide) (by decide),
   by decide⟩

/-! ## Subnet expansion -/

theorem wxSplitLoop_token (sep escape : Char) (t : List Char) :
    ∀ (rest curr : List Char) (ret : List String),
    (∀ c ∈ t, c ≠ sep ∧ c ≠ escape) →
    wxSplitLoop sep escape (t ++ rest) curr ret = wxSplitLoop sep escape rest (curr ++ t) ret := by
  induction t with
  | nil => intro rest curr ret _; simp
  | cons c t ih =>
    intro rest curr ret h
    have hc := h c (List.mem_cons_self _ _)
    have hrec := ih rest (curr ++ [c]) ret (fun x hx => h x (List.mem_cons_of_mem _ hx))
    rw [List.cons_append, wxSplitLoop.eq_def]
    simp only [if_neg hc.1, if_neg hc.2]
    rw [hrec]
    simp

theorem wxSplitLoop_sep (sep escape : Char) (rest curr : List Char) (ret : List String) :
    wxSplitLoop sep escape (sep :: rest) curr ret =
      wxSplitLoop sep escape rest [] (ret ++ [String.mk curr]) := by
  rw [wxSplitLoop.eq_def]
  simp only [if_true]

theorem wxSplit_four (t1 t2 t3 t4 : String)
    (h1 : ∀ c ∈ t1.data, c ≠ '.' ∧ c ≠ Char.ofNat 92)
    (h2 : ∀ c ∈ t2.data, c ≠ '.' ∧ c ≠ Char.ofNat 92)
    (h3 : ∀ c ∈ t3.data, c ≠ '.' ∧ c ≠ Char.ofNat 92)
    (h4 : ∀ c ∈ t4.data, c ≠ '.' ∧ c ≠ Char.ofNat 92) :
    wxSplit (t1 ++ "." ++ t2 ++ "." ++ t3 ++ "." ++ t4) '.' = [t1, t2, t3, t4] := by
  have hdata : (t1 ++ "." ++ t2 ++ "." ++ t3 ++ "." ++ t4).data =
      t1.data ++ '.' :: (t2.data ++ '.' :: (t3.data ++ '.' :: (t4.data ++ []))) := by
    simp [String.data_append]
  have hne : (t1 ++ "." ++ t2 ++ "." ++ t3 ++ "." ++ t4).data ≠ [] := by
    rw [hdata]; simp
  unfold wxSplit
  simp only [if_neg hne]
  rw [hdata, wxSplitLoop_token _ _ _ _ _ _ h1, wxSplitLoop_sep,
    wxSplitLoop_token _ _ _ _ _ _ h2, wxSplitLoop_sep,
    wxSplitLoop_token _ _ _ _ _ _ h3, wxSplitLoop_sep,
    wxSplitLoop_token _ _ _ _ _ _ h4]
  simp [wxSplitLoop]

theorem wxSplit_fmtQuad (ip1 ip2 ip3 ip4 : Int) :
    wxSplit (fmtQuad ip1 ip2 ip3 ip4) '.' = [fmtD ip1, fmtD ip2, fmtD ip3, fmtD ip4] :=
  wxSplit_four _ _ _ _
    (fun c hc => (fmtD_chars ip1 c hc).2) (fun c hc => (fmtD_chars ip2 c hc).2)
    (fun c hc => (fmtD_chars ip3 c hc).2) (fun c hc => (fmtD_chars ip4 c hc).2)

theorem fmtQuad_last_injective (ip1 ip2 ip3 i j : Int)
    (h : fmtQuad ip1 ip2 ip3 i = fmtQuad ip1 ip2 ip3 j) : i = j := by
  unfold fmtQuad at h
  have h2 := String.ext_iff.1 h
  rw [String.data_append, String.data_append (_ ++ ".")] at h2
  exact fmtD_injective i j (String.ext (List.append_cancel_left h2))

theorem addClassDSubnet_of_split (wm : WorkManager) (ip proxy : String)
    (e0 e1 e2 e3 : String) (more : List String)
    (h : wxSplit ip '.' = e0 :: e1 :: e2 :: e3 :: more) :
    wm.AddClassDSubnet ip proxy = subnetLoop (wxAtoi e0) (wxAtoi e1) (wxAtoi e2) proxy 1 wm := by
  unfold WorkManager.AddClassDSubnet
  simp [h]

theorem subnetLoop_fresh (ip1 ip2 ip3 : Int) (proxy : String) (n : Nat) :
    ∀ (i : Nat) (wm : WorkManager), i + n = 255 →
    (∀ j : Nat, i ≤ j → j < 255 → fmtQuad ip1 ip2 ip3 j ∉ wm.scannedIP) →
    subnetLoop ip1 ip2 ip3 proxy i wm =
      { wm with
        scannedIP := wm.scannedIP ++ (List.range' i n).map (fun j : Nat => fmtQuad ip1 ip2 ip3 j),
        queuePing := wm.queuePing ++
          (List.range' i n).map (fun j : Nat => Work.ping (fmtQuad ip1 ip2 ip3 j) "" proxy) } := by
  induction n with
  | zero =>
    intro i wm hi _
    rw [subnetLoop, if_neg (by omega)]
    simp
  | succ n ih =>
    intro i wm hi hfresh
    have hlt : i < 255 := by omega
    have hmod : (i + 1) % 256 = i + 1 := Nat.mod_eq_of_lt (by omega)
    have hnot : fmtQuad ip1 ip2 ip3 i ∉ wm.scannedIP := hfresh i (Nat.le_refl i) hlt
    rw [subnetLoop, if_pos hlt, hmod]
    have hadd : wm.AddIP (fmtQuad ip1 ip2 ip3 i) "" proxy =
        { wm with scannedIP := wm.scannedIP ++ [fmtQuad ip1 ip2 ip3 i],
                  queuePing := wm.queuePing ++ [Work.ping (fmtQuad ip1 ip2 ip3 i) "" proxy] } := by
      simp [WorkManager.AddIP, hnot]
    rw [hadd, ih (i + 1) _ (by omega)]
    · simp [List.range'_succ]
    · intro j hj hj2 hmem
      rcases List.mem_append.1 hmem with hmem | hmem
      · exact hfresh j (by omega) hj2 hmem
      · have e := fmtQuad_last_injective _ _ _ _ _ (List.mem_singleton.1 hmem)
        have e2 : j = i := by exact_mod_cast e
        omega

/-- C8: for octets `a.b.c.d` and a manager whose scanned-IP set holds none of
`a.b.c.1` .. `a.b.c.254`, `AddClassDSubnet` terminates and appends to the ping
queue exactly the 254 probes for `a.b.c.1`, ..., `a.b.c.254`, in that order,
each with an empty reason and the given proxy, records the same addresses as
scanned, and changes nothing else. -/
theorem C8_addClassDSubnet_sweeps_1_to_254 (wm : WorkManager) (a b c d : Nat) (proxy : String)
    (_ha : a ≤ 255) (_hb : b ≤ 255) (_hc : c ≤ 255) (_hd : d ≤ 255)
    (hfresh : ∀ i : Nat, 1 ≤ i → i ≤ 254 → fmtQuad a b c i ∉ wm.scannedIP) :
    wm.AddClassDSubnet (fmtQuad a b c d) proxy =
      { wm with
        scannedIP := wm.scannedIP ++ (List.range' 1 254).map (fun i : Nat => fmtQuad a b c i),
        queuePing := wm.queuePing ++
          (List.range' 1 254).map (fun i : Nat => Work.ping (fmtQuad a b c i) "" proxy) } ∧
    (wm.AddClassDSubnet (fmtQuad a b c d) proxy).queuePing.length =
      wm.queuePing.length + 254 := by
  have hrun : wm.AddClassDSubnet (fmtQuad a b c d) proxy =
      { wm with
        scannedIP := wm.scannedIP ++ (List.range' 1 254).map (fun i : Nat => fmtQuad a b c i),
        queuePing := wm.queuePing ++
          (List.range' 1 254).map (fun i : Nat => Work.ping (fmtQuad a b c i) "" proxy) } := by
    rw [addClassDSubnet_of_split wm _ proxy _ _ _ _ [] (wxSplit_fmtQuad a b c d),
      wxAtoi_fmtD, wxAtoi_fmtD, wxAtoi_fmtD]
    exact subnetLoop_fresh a b c proxy 254 1 wm rfl (fun j h1 h2 => hfresh j h1 (by omega))
  refine ⟨hrun, ?_⟩
  rw [hrun]
  simp

/-- C8 for the address 10.0.0.5 on a fresh manager: the probes enqueued are
those for 10.0.0.1 .. 10.0.0.254. -/
theorem C8_addClassDSubnet_sweeps_1_to_254_witness :
    fmtQuad (10 : Nat) (0 : Nat) (0 : Nat) (5 : Nat) = "10.0.0.5" ∧
    (({} : WorkManager).AddClassDSubnet (fmtQuad (10 : Nat) (0 : Nat) (0 : Nat) (5 : Nat)) "" =
      { ({} : WorkManager) with
        scannedIP := ({} : WorkManager).scannedIP ++
          (List.range' 1 254).map (fun i : Nat => fmtQuad (10 : Nat) (0 : Nat) (0 : Nat) i),
        queuePing := ({} : WorkManager).queuePing ++
          (List.range' 1 254).map
            (fun i : Nat => Work.ping (fmtQuad (10 : Nat) (0 : Nat) (0 : Nat) i) "" "") } ∧
    (({} : WorkManager).AddClassDSubnet
        (fmtQuad (10 : Nat) (0 : Nat) (0 : Nat) (5 : Nat)) "").queuePing.length =
      ({} : WorkManager).queuePing.length + 254) :=
  ⟨by decide,
   C8_addClassDSubnet_sweeps_1_to_254 {} 10 0 0 5 "" (by decide) (by decide) (by decide)
     (by decide) (fun _ _ _ h => absurd h (List.not_mem_nil _))⟩

/-- C9, as the claim states it, fails for more than four components: the
input `1.2.3.4.5` splits into five, passes the test `size() > 3`, and on a
fresh manager 254 probes are enqueued, the first for `1.2.3.1`. -/
theorem C9_five_components_counterexample :
    (wxSplit "1.2.3.4.5" '.').length = 5 ∧
    (({} : WorkManager).AddClassDSubnet "1.2.3.4.5" "").queuePing.length = 254 ∧
    (({} : WorkManager).AddClassDSubnet "1.2.3.4.5" "").queuePing.head? =
      some (Work.ping "1.2.3.1" "" "") ∧
    ({} : WorkManager).AddClassDSubnet "1.2.3.4.5" "" ≠ {} := by
  have hsplit : wxSplit "1.2.3.4.5" '.' = ["1", "2", "3", "4", "5"] := by decide
  have h1 : wxAtoi "1" = 1 := by decide
  have h2 : wxAtoi "2" = 2 := by decide
  have h3 : wxAtoi "3" = 3 := by decide
  have hrun := addClassDSubnet_of_split {} "1.2.3.4.5" "" "1" "2" "3" "4" ["5"] hsplit
  rw [h1, h2, h3, subnetLoop_fresh 1 2 3 "" 254 1 {} rfl
    (fun _ _ _ h => absurd h (List.not_mem_nil _))] at hrun
  have hq : (({} : WorkManager).AddClassDSubnet "1.2.3.4.5" "").queuePing =
      (List.range' 1 254).map (fun j : Nat => Work.ping (fmtQuad 1 2 3 j) "" "") := by
    rw [hrun]; rfl
  have hfirst : fmtQuad 1 2 3 (1 : Nat) = "1.2.3.1" := by decide
  refine ⟨by rw [hsplit]; rfl, by rw [hq]; simp, ?_, ?_⟩
  · rw [hq, List.range'_succ, List.map_cons, hfirst]; rfl
  · intro e
    have hlen : (({} : WorkManager).AddClassDSubnet "1.2.3.4.5" "").queuePing.length = 254 := by
      rw [hq]; simp
    rw [e] at hlen
    exact absurd hlen (by decide)

/-- C9, amended: for every input string that splits on the dot into fewer
than four components, `AddClassDSubnet` changes nothing in the manager: no
`AddIP` is made, the ping queue and the scanned-IP set stay as they were. -/
theorem C9_addClassDSubnet_fewer_than_four_noop (wm : WorkManager) (ip proxy : String)
    (h : (wxSplit ip '.').length < 4) : wm.AddClassDSubnet ip proxy = wm := by
  unfold WorkManager.AddClassDSubnet
  simp only
  rw [if_neg (by omega)]

/-- C9 amended, for the three-component input `10.0.0` on a fresh manager. -/
theorem C9_addClassDSubnet_fewer_than_four_noop_witness :
    (wxSplit "10.0.0" '.').length < 4 ∧
    ({} : WorkManager).AddClassDSubnet "10.0.0" "" = {} :=
  ⟨by decide, C9_addClassDSubnet_fewer_than_four_noop {} "10.0.0" "" (by decide)⟩

/-! ## The reachability probe -/

theorem addHTTP_published (wm : WorkManager) (ip : String) (port : Int) (proxy : String) :
    (wm.AddHTTP ip port proxy).published = wm.published := by
  unfold WorkManager.AddHTTP
  simp only
  split <;> rfl

theorem mergedRecord_pingResults (ip why : String) (ip1 ip2 ip3 ip4 : Int) (ping : String) :
    mergedRecord (pingResults ip why ip1 ip2 ip3 ip4 ++ [("PING", ping)]) =
      pingResults ip why ip1 ip2 ip3 ip4 ++ [("PING", ping)] := by
  by_cases hw : why = ""
  · simp [pingResults, hw, mergedRecord, mergeLoop, keyFound]
  · simp [pingResults, hw, mergedRecord, mergeLoop, keyFound]

theorem pingWork_published (wm : WorkManager) (ip1 ip2 ip3 ip4 : Int) (why proxy : String)
    (pingOK : Bool) :
    (PingWork.DoWork wm (fmtQuad ip1 ip2 ip3 ip4) why proxy pingOK).published =
      wm.published ++ [pingResults (fmtQuad ip1 ip2 ip3 ip4) why ip1 ip2 ip3 ip4 ++
        [("PING", if pingOK then "OK" else "FAILED")]] := by
  unfold PingWork.DoWork
  simp only [wxSplit_fmtQuad, List.length_cons, List.length_nil, List.getD_cons_zero,
    List.getD_cons_succ, wxAtoi_fmtD]
  rw [if_pos (by decide)]
  cases pingOK with
  | true =>
    simp only [if_true]
    rw [publishResult_nonempty _ _ (by simp), mergedRecord_pingResults]
    simp only [addHTTP_published, WorkManager.AddFoundIP]
  | false =>
    simp only [Bool.false_eq_true, if_false]
    rw [addHTTP_published, publishResult_nonempty _ _ (by simp), mergedRecord_pingResults]

theorem privateNetwork_iff (o1 o2 o3 o4 : Nat) :
    privateNetwork o1 o2 o3 o4 = true ↔
      ((o1 = 10 ∧ ¬ (o2 = 255 ∧ o3 = 255 ∧ o4 = 255)) ∨ (o1 = 172 ∧ 16 ≤ o2 ∧ o2 ≤ 31) ∨
        (o1 = 192 ∧ o2 = 168 ∧ ¬ (o3 = 255 ∧ o4 = 255))) := by
  unfold privateNetwork
  split_ifs <;> simp <;> omega

theorem pingWork_network_type (wm : WorkManager) (o1 o2 o3 o4 : Nat) (why proxy : String)
    (pingOK : Bool) :
    ∃ out, (PingWork.DoWork wm (fmtQuad o1 o2 o3 o4) why proxy pingOK).published =
        wm.published ++ [out] ∧
      ∀ v, ("Network Type", v) ∈ out ↔
        v = if ((o1 = 10 ∧ ¬ (o2 = 255 ∧ o3 = 255 ∧ o4 = 255)) ∨
                (o1 = 172 ∧ 16 ≤ o2 ∧ o2 ≤ 31) ∨
                (o1 = 192 ∧ o2 = 168 ∧ ¬ (o3 = 255 ∧ o4 = 255)))
            then "Private" else "Public" := by
  refine ⟨_, pingWork_published wm o1 o2 o3 o4 why proxy pingOK, ?_⟩
  intro v
  have hp := privateNetwork_iff o1 o2 o3 o4
  by_cases hc : ((o1 = 10 ∧ ¬ (o2 = 255 ∧ o3 = 255 ∧ o4 = 255)) ∨
      (o1 = 172 ∧ 16 ≤ o2 ∧ o2 ≤ 31) ∨ (o1 = 192 ∧ o2 = 168 ∧ ¬ (o3 = 255 ∧ o4 = 255)))
  · rw [if_pos hc]
    have hpn : privateNetwork o1 o2 o3 o4 = true := hp.2 hc
    by_cases hw : why = "" <;> simp [pingResults, hw, hpn]
  · rw [if_neg hc]
    have hpn : privateNetwork o1 o2 o3 o4 = false := by
      cases hb : privateNetwork o1 o2 o3 o4 with
      | false => rfl
      | true => exact absurd (hp.1 hb) hc
    by_cases hw : why = "" <;> simp [pingResults, hw, hpn]

theorem pingWork_network_type_at (wm : WorkManager) (o1 o2 o3 o4 : Nat) (why proxy : String)
    (pingOK : Bool) (ip type : String) (hip : fmtQuad o1 o2 o3 o4 = ip)
    (htype : (if ((o1 = 10 ∧ ¬ (o2 = 255 ∧ o3 = 255 ∧ o4 = 255)) ∨
                (o1 = 172 ∧ 16 ≤ o2 ∧ o2 ≤ 31) ∨
                (o1 = 192 ∧ o2 = 168 ∧ ¬ (o3 = 255 ∧ o4 = 255)))
            then "Private" else "Public") = type) :
    ∃ out, (PingWork.DoWork wm ip why proxy pingOK).published = wm.published ++ [out] ∧
      ∀ v, ("Network Type", v) ∈ out ↔ v = type := by
  rw [← hip, ← htype]
  exact pingWork_network_type wm o1 o2 o3 o4 why proxy pingOK

/-- C10: for octets `o1.o2.o3.o4`, whatever the probe's reason, proxy and ping
outcome, `PingWork::DoWork` publishes one record, whose "Network Type" value
is "Private" exactly when `o1 = 10` and not `o2 = o3 = o4 = 255`, or
`o1 = 172` and `16 <= o2 <= 31`, or `o1 = 192`, `o2 = 168` and not
`o3 = o4 = 255`, and "Public" otherwise.  So 10.1.2.3 and 192.168.1.1 are
Private, and 10.255.255.255, 224.0.0.1 and 8.8.8.8 are Public. -/
theorem C10_pingWork_network_type (wm : WorkManager) (o1 o2 o3 o4 : Nat) (why proxy : String)
    (pingOK : Bool)
    (_h1 : o1 ≤ 255) (_h2 : o2 ≤ 255) (_h3 : o3 ≤ 255) (_h4 : o4 ≤ 255) :
    (∃ out, (PingWork.DoWork wm (fmtQuad o1 o2 o3 o4) why proxy pingOK).published =
        wm.published ++ [out] ∧
      ∀ v, ("Network Type", v) ∈ out ↔
        v = if ((o1 = 10 ∧ ¬ (o2 = 255 ∧ o3 = 255 ∧ o4 = 255)) ∨
                (o1 = 172 ∧ 16 ≤ o2 ∧ o2 ≤ 31) ∨
                (o1 = 192 ∧ o2 = 168 ∧ ¬ (o3 = 255 ∧ o4 = 255)))
            then "Private" else "Public") ∧
    (∃ out, (PingWork.DoWork wm "10.1.2.3" why proxy pingOK).published =
        wm.published ++ [out] ∧ ∀ v, ("Network Type", v) ∈ out ↔ v = "Private") ∧
    (∃ out, (PingWork.DoWork wm "192.168.1.1" why proxy pingOK).published =
        wm.published ++ [out] ∧ ∀ v, ("Network Type", v) ∈ out ↔ v = "Private") ∧
    (∃ out, (PingWork.DoWork wm "10.255.255.255" why proxy pingOK).published =
        wm.published ++ [out] ∧ ∀ v, ("Network Type", v) ∈ out ↔ v = "Public") ∧
    (∃ out, (PingWork.DoWork wm "224.0.0.1" why proxy pingOK).published =
        wm.published ++ [out] ∧ ∀ v, ("Network Type", v) ∈ out ↔ v = "Public") ∧
    (∃ out, (PingWork.DoWork wm "8.8.8.8" why proxy pingOK).published =
        wm.published ++ [out] ∧ ∀ v, ("Network Type", v) ∈ out ↔ v = "Public") :=
  ⟨pingWork_network_type wm o1 o2 o3 o4 why proxy pingOK,
   pingWork_network_type_at wm 10 1 2 3 why proxy pingOK _ _ (by decide) (by decide),
   pingWork_network_type_at wm 192 168 1 1 why proxy pingOK _ _ (by decide) (by decide),
   pingWork_network_type_at wm 10 255 255 255 why proxy pingOK _ _ (by decide) (by decide),
   pingWork_network_type_at wm 224 0 0 1 why proxy pingOK _ _ (by decide) (by decide),
   pingWork_network_type_at wm 8 8 8 8 why proxy pingOK _ _ (by decide) (by decide)⟩

/-- C10 for the address 172.16.0.9, probed from a fresh manager with a failed
ping: the record published is evaluated, and its network type is Private. -/
theorem C10_pingWork_network_type_witness :
    (PingWork.DoWork {} "172.16.0.9" "ARP" "" false).published =
      [[("IP", "172.16.0.9"), ("Type", "Ping"), ("Why", "ARP"), ("Network", "172.16.0.0"),
        ("Network Type", "Private"), ("PING", "FAILED")]] ∧
    ∃ out, (PingWork.DoWork {} (fmtQuad (172 : Nat) (16 : Nat) (0 : Nat) (9 : Nat))
        "ARP" "" false).published = ({} : WorkManager).published ++ [out] ∧
      ∀ v, ("Network Type", v) ∈ out ↔
        v = if (((172 : Nat) = 10 ∧ ¬ ((16 : Nat) = 255 ∧ (0 : Nat) = 255 ∧ (9 : Nat) = 255)) ∨
                ((172 : Nat) = 172 ∧ 16 ≤ (16 : Nat) ∧ (16 : Nat) ≤ 31) ∨
                ((172 : Nat) = 192 ∧ (16 : Nat) = 168 ∧ ¬ ((0 : Nat) = 255 ∧ (9 : Nat) = 255)))
            then "Private" else "Public" :=
  ⟨by decide,
   (C10_pingWork_network_type {} 172 16 0 9 "ARP" "" false
     (by decide) (by decide) (by decide) (by decide)).1⟩

/-! ## The merge as the sublist of last occurrences -/

theorem mergedRecord_eq_lastOccurrences (result : Record) :
    mergedRecord result = lastOccurrences result := by
  induction result with
  | nil => rfl
  | cons p rest ih =>
    have hany : (rest.any (fun q => decide (q.1 = p.1)) = true) ↔ p.1 ∈ rest.map Prod.fst := by
      rw [List.any_eq_true, List.mem_map]
      constructor
      · rintro ⟨q, hq, e⟩
        exact ⟨q, hq, of_decide_eq_true e⟩
      · rintro ⟨q, hq, e⟩
        exact ⟨q, hq, decide_eq_true e⟩
    rw [mergedRecord_cons, lastOccurrences, ih]
    by_cases h : p.1 ∈ rest.map Prod.fst
    · rw [if_pos h, if_pos (hany.2 h)]
    · rw [if_neg h, if_neg (fun h2 => h (hany.1 h2))]

theorem mergedRecord_sublist (result : Record) : List.Sublist (mergedRecord result) result := by
  induction result with
  | nil => exact List.Sublist.slnil
  | cons p rest ih =>
    rw [mergedRecord_cons]
    by_cases h : p.1 ∈ rest.map Prod.fst
    · rw [if_pos h]; exact List.Sublist.cons p ih
    · rw [if_neg h]; exact List.Sublist.cons₂ p ih

theorem mergedRecord_of_nodup (result : Record) (h : (result.map Prod.fst).Nodup) :
    mergedRecord result = result := by
  induction result with
  | nil => rfl
  | cons p rest ih =>
    rw [List.map_cons, List.nodup_cons] at h
    rw [mergedRecord_cons, if_neg h.1, ih h.2]

/-- C19: the list `ScanWork::PublishResult` forwards for a non-empty input is
the sublist of the input made of the pairs that are the last occurrence of
their key, in input order (nothing is forwarded for the empty input); the
merged list is a subsequence of the input, an input with pairwise distinct
keys is merged to itself, and merging a merged list changes nothing. -/
theorem C19_publishResult_forwards_last_occurrences (wm : WorkManager) (result : Record) :
    (ScanWork.PublishResult wm result).published =
      wm.published ++ (if result = [] then [] else [lastOccurrences result]) ∧
    mergedRecord result = lastOccurrences result ∧
    List.Sublist (mergedRecord result) result ∧
    ((result.map Prod.fst).Nodup → mergedRecord result = result) ∧
    mergedRecord (mergedRecord result) = mergedRecord result := by
  refine ⟨?_, mergedRecord_eq_lastOccurrences result, mergedRecord_sublist result,
    mergedRecord_of_nodup result, mergedRecord_of_nodup _ (mergedRecord_keys_nodup result)⟩
  by_cases h : result = []
  · rw [if_pos h, h]; simp [ScanWork.PublishResult]
  · rw [if_neg h, publishResult_nonempty wm result h, mergedRecord_eq_lastOccurrences]

/-- C19 at the inputs `[(K,1),(J,x),(K,2)]` and, with distinct keys,
`[(K,1),(J,x)]`, on a fresh manager. -/
theorem C19_publishResult_forwards_last_occurrences_witness :
    (ScanWork.PublishResult {} [("K", "1"), ("J", "x"), ("K", "2")]).published =
      [[("J", "x"), ("K", "2")]] ∧
    lastOccurrences [("K", "1"), ("J", "x"), ("K", "2")] = [("J", "x"), ("K", "2")] ∧
    mergedRecord [("K", "1"), ("J", "x")] = [("K", "1"), ("J", "x")] :=
  ⟨by decide, by decide,
   (C19_publishResult_forwards_last_occurrences {} [("K", "1"), ("J", "x")]).2.2.2.1
     (by decide)⟩

/-! ## The calls of the reachability probe -/

theorem publishResult_eq_run (wm : WorkManager) (result : Record) :
    ScanWork.PublishResult wm result = wm.run (ScanWork.publishCalls result) := by
  unfold ScanWork.PublishResult ScanWork.publishCalls
  by_cases h : result.length = 0
  · rw [if_pos h, if_pos h]; rfl
  · rw [if_neg h, if_neg h]; rfl

theorem run_append (wm : WorkManager) (a b : List Call) :
    wm.run (a ++ b) = (wm.run a).run b := by
  unfold WorkManager.run
  rw [List.foldl_append]

theorem pingWork_doWork_eq_run (wm : WorkManager) (ip why proxy : String) (pingOK : Bool) :
    PingWork.DoWork wm ip why proxy pingOK = wm.run (PingWork.calls ip why proxy pingOK) := by
  unfold PingWork.DoWork PingWork.calls
  simp only
  by_cases h : (wxSplit ip '.').length > 3
  · rw [if_pos h, if_pos h]
    cases pingOK with
    | true =>
      simp only [if_true]
      rw [run_append, publishResult_eq_run]
      rfl
    | false =>
      simp only [Bool.false_eq_true, if_false]
      rw [run_append, publishResult_eq_run]
      rfl
  · rw [if_neg h, if_neg h]; rfl

theorem pingResults_no_ping (ip why : String) (ip1 ip2 ip3 ip4 : Int) :
    ∀ p ∈ pingResults ip why ip1 ip2 ip3 ip4, p.1 ≠ "PING" := by
  intro p hp
  by_cases hw : why = ""
  · simp [pingResults, hw] at hp
    rcases hp with rfl | rfl | rfl | rfl <;> simp
  · simp [pingResults, hw] at hp
    rcases hp with rfl | rfl | rfl | rfl | rfl <;> simp

theorem publishCalls_pingResults (ip why : String) (ip1 ip2 ip3 ip4 : Int) (ping : String) :
    ScanWork.publishCalls (pingResults ip why ip1 ip2 ip3 ip4 ++ [("PING", ping)]) =
      [Call.publishResult (pingResults ip why ip1 ip2 ip3 ip4 ++ [("PING", ping)])] := by
  unfold ScanWork.publishCalls
  rw [if_neg (by simp), mergedRecord_pingResults]

/-- C11, as the claim states it, fails for a target that is not a dotted
address: for `localhost`, which has no dot, `PingWork::DoWork` makes no call at
all on the manager, whatever the ping would answer: no record is published and
`AddHTTP` is not called. -/
theorem C11_non_dotted_target_counterexample :
    (wxSplit "localhost" '.').length = 1 ∧
    PingWork.calls "localhost" "" "" true = [] ∧
    PingWork.calls "localhost" "" "" false = [] ∧
    PingWork.DoWork {} "localhost" "" "" true = {} ∧
    PingWork.DoWork {} "localhost" "" "" false = {} := by
  decide

/-- C11, amended: for every target that splits on the dot into at least four
components, every reason, proxy and ping outcome, `PingWork::DoWork` makes
exactly these calls: on success `AddFoundIP(ip)`, `AddHTTP(ip, 80, proxy)` and
one `PublishResult`; on failure one `PublishResult` and `AddHTTP(ip, 80,
proxy)`.  The two records are the same list with a last entry PING = OK or
PING = FAILED, and no other PING entry.  The manager after the probe is the
manager after these calls, and its sink has received that one record. -/
theorem C11_pingWork_one_record_one_http (wm : WorkManager) (ip why proxy : String)
    (h : (wxSplit ip '.').length > 3) :
    ∃ rec : Record, (∀ p ∈ rec, p.1 ≠ "PING") ∧
      PingWork.calls ip why proxy true =
        [Call.addFoundIP ip, Call.addHTTP ip 80 proxy,
         Call.publishResult (rec ++ [("PING", "OK")])] ∧
      PingWork.calls ip why proxy false =
        [Call.publishResult (rec ++ [("PING", "FAILED")]), Call.addHTTP ip 80 proxy] ∧
      (∀ pingOK : Bool,
        PingWork.DoWork wm ip why proxy pingOK = wm.run (PingWork.calls ip why proxy pingOK) ∧
        (PingWork.DoWork wm ip why proxy pingOK).published =
          wm.published ++ [rec ++ [("PING", if pingOK then "OK" else "FAILED")]] ∧
        (PingWork.DoWork wm ip why proxy pingOK).found =
          wm.found ++ (if pingOK then [ip] else [])) := by
  have hok : PingWork.calls ip why proxy true =
      [Call.addFoundIP ip, Call.addHTTP ip 80 proxy,
       Call.publishResult (pingResults ip why (wxAtoi ((wxSplit ip '.').getD 0 ""))
         (wxAtoi ((wxSplit ip '.').getD 1 "")) (wxAtoi ((wxSplit ip '.').getD 2 ""))
         (wxAtoi ((wxSplit ip '.').getD 3 "")) ++ [("PING", "OK")])] := by
    unfold PingWork.calls
    simp only [if_pos h, if_true, publishCalls_pingResults]
    rfl
  have hfail : PingWork.calls ip why proxy false =
      [Call.publishResult (pingResults ip why (wxAtoi ((wxSplit ip '.').getD 0 ""))
         (wxAtoi ((wxSplit ip '.').getD 1 "")) (wxAtoi ((wxSplit ip '.').getD 2 ""))
         (wxAtoi ((wxSplit ip '.').getD 3 "")) ++ [("PING", "FAILED")]),
       Call.addHTTP ip 80 proxy] := by
    unfold PingWork.calls
    simp only [if_pos h, Bool.false_eq_true, if_false, publishCalls_pingResults]
    rfl
  refine ⟨_, pingResults_no_ping ip why _ _ _ _, hok, hfail, ?_⟩
  intro pingOK
  refine ⟨pingWork_doWork_eq_run wm ip why proxy pingOK, ?_, ?_⟩
  · rw [pingWork_doWork_eq_run]
    cases pingOK with
    | true =>
      rw [hok]
      simp [WorkManager.run, WorkManager.call, WorkManager.PublishResult, addHTTP_published,
        WorkManager.AddFoundIP]
    | false =>
      rw [hfail]
      simp [WorkManager.run, WorkManager.call, WorkManager.PublishResult, addHTTP_published]
  · rw [pingWork_doWork_eq_run]
    have hfound : ∀ (m : WorkManager) (a : String) (n : Int) (b : String),
        (m.AddHTTP a n b).found = m.found := by
      intro m a n b
      unfold WorkManager.AddHTTP
      simp only
      split <;> rfl
    cases pingOK with
    | true =>
      rw [hok]
      simp [WorkManager.run, WorkManager.call, WorkManager.PublishResult, hfound,
        WorkManager.AddFoundIP]
    | false =>
      rw [hfail]
      simp [WorkManager.run, WorkManager.call, WorkManager.PublishResult, hfound]

/-- C11 amended, for the public address 8.8.8.8 probed from a fresh manager. -/
theorem C11_pingWork_one_record_one_http_witness :
    (wxSplit "8.8.8.8" '.').length > 3 ∧
    ∃ rec : Record, (∀ p ∈ rec, p.1 ≠ "PING") ∧
      PingWork.calls "8.8.8.8" "" "" true =
        [Call.addFoundIP "8.8.8.8", Call.addHTTP "8.8.8.8" 80 "",
         Call.publishResult (rec ++ [("PING", "OK")])] ∧
      PingWork.calls "8.8.8.8" "" "" false =
        [Call.publishResult (rec ++ [("PING", "FAILED")]), Call.addHTTP "8.8.8.8" 80 ""] ∧
      (∀ pingOK : Bool,
        PingWork.DoWork {} "8.8.8.8" "" "" pingOK =
          ({} : WorkManager).run (PingWork.calls "8.8.8.8" "" "" pingOK) ∧
        (PingWork.DoWork {} "8.8.8.8" "" "" pingOK).published =
          ({} : WorkManager).published ++ [rec ++ [("PING", if pingOK then "OK" else "FAILED")]] ∧
        (PingWork.DoWork {} "8.8.8.8" "" "" pingOK).found =
          ({} : WorkManager).found ++ (if pingOK then ["8.8.8.8"] else [])) :=
  ⟨by decide, C11_pingWork_one_record_one_http {} "8.8.8.8" "" "" (by decide)⟩

/-! ## The MAC vendor lookup and its cache -/

theorem cacheFind_cacheSet_same (cache : VendorCache) (mac vendor : String) :
    cacheFind (cacheSet cache mac vendor) mac = some vendor := by
  induction cache with
  | nil => simp [cacheSet, cacheFind]
  | cons e rest ih =>
    by_cases h : e.1 = mac
    · simp [cacheSet, cacheFind, h]
    · simp [cacheSet, cacheFind, h, ih]

theorem cacheFind_cacheSet_other (cache : VendorCache) (mac vendor other : String)
    (hne : other ≠ mac) :
    cacheFind (cacheSet cache mac vendor) other = cacheFind cache other := by
  have hmo : ¬ mac = other := fun e => hne e.symm
  induction cache with
  | nil => simp [cacheSet, cacheFind, hmo]
  | cons e rest ih =>
    by_cases h : e.1 = mac
    · simp [cacheSet, cacheFind, h, hmo]
    · simp [cacheSet, cacheFind, h, ih]

theorem mem_cacheSet (cache : VendorCache) (mac vendor : String) (e : String × String)
    (he : e ∈ cacheSet cache mac vendor) : e ∈ cache ∨ e = (mac, vendor) := by
  induction cache with
  | nil =>
    simp only [cacheSet, List.mem_singleton] at he
    exact Or.inr he
  | cons d rest ih =>
    unfold cacheSet at he
    by_cases h : d.1 = mac
    · rw [if_pos h] at he
      rcases List.mem_cons.1 he with he | he
      · exact Or.inr he
      · exact Or.inl (List.mem_cons_of_mem _ he)
    · rw [if_neg h] at he
      rcases List.mem_cons.1 he with he | he
      · exact Or.inl (he ▸ List.mem_cons_self _ _)
      · rcases ih he with h2 | h2
        · exact Or.inl (List.mem_cons_of_mem _ h2)
        · exact Or.inr h2

theorem macWork_publish_vendor (ip mac vendor : String) (h : vendor ≠ "") :
    MACWork.publish ip mac vendor =
      [Call.publishResult
        [("Type", "MAC"), ("IP", ip), ("MAC", mac), ("MAC Vendor", vendor)]] := by
  simp [MACWork.publish, h, ScanWork.publishCalls, mergedRecord, mergeLoop, keyFound]

theorem macWork_publish_empty (ip mac : String) :
    MACWork.publish ip mac "" =
      [Call.publishResult [("Type", "MAC"), ("IP", ip), ("MAC", mac)]] := by
  simp [MACWork.publish, ScanWork.publishCalls, mergedRecord, mergeLoop, keyFound]

theorem macWork_remote (LookupMacAddress : String → String) (reply : String)
    (cache : VendorCache) (ip mac : String)
    (hstatic : LookupMacAddress mac = "")
    (hcache : cacheFind cache mac = none ∨ cacheFind cache mac = some "") :
    MACWork.DoWork LookupMacAddress reply cache ip mac =
      { cache :=
          if (if Contains reply (quoted "Not Found") then ""
              else if Contains reply (quoted "Too Many Requests") then "MAC Lookup Unavailable"
              else reply) ≠ "MAC Lookup Unavailable"
          then cacheSet cache mac
            (if Contains reply (quoted "Not Found") then ""
             else if Contains reply (quoted "Too Many Requests") then "MAC Lookup Unavailable"
             else reply)
          else cache,
        remoteCalls := 1,
        calls := MACWork.publish ip mac
          (if Contains reply (quoted "Not Found") then ""
           else if Contains reply (quoted "Too Many Requests") then "MAC Lookup Unavailable"
           else reply) } := by
  unfold MACWork.DoWork
  rcases hcache with hc | hc <;> simp [hstatic, hc]

theorem macWork_cached (LookupMacAddress : String → String) (reply : String)
    (cache : VendorCache) (ip mac vendor : String)
    (hstatic : LookupMacAddress mac = "")
    (hcache : cacheFind cache mac = some vendor) (hv : vendor ≠ "") :
    MACWork.DoWork LookupMacAddress reply cache ip mac =
      { cache := cache, remoteCalls := 0, calls := MACWork.publish ip mac vendor } := by
  unfold MACWork.DoWork
  simp [hstatic, hcache, hv]

/-- C12: for a MAC that the static table does not know and the cache does not
hold, when the first lookup's remote reply is a vendor string (not empty, not
the placeholder, and neither the Not Found nor the Too Many Requests reply),
two consecutive lookups of that MAC make one remote call in total, the first
one, and both report that reply as the vendor. -/
theorem C12_mac_cache_one_remote_call (LookupMacAddress : String → String)
    (cache : VendorCache) (ip1 ip2 mac reply1 reply2 : String)
    (hstatic : LookupMacAddress mac = "") (hcache : cacheFind cache mac = none)
    (hne : reply1 ≠ "") (hph : reply1 ≠ "MAC Lookup Unavailable")
    (hnf : Contains reply1 (quoted "Not Found") = false)
    (htmr : Contains reply1 (quoted "Too Many Requests") = false) :
    (MACWork.DoWork LookupMacAddress reply1 cache ip1 mac).remoteCalls = 1 ∧
    (MACWork.DoWork LookupMacAddress reply2
      (MACWork.DoWork LookupMacAddress reply1 cache ip1 mac).cache ip2 mac).remoteCalls = 0 ∧
    (macLookups LookupMacAddress cache [⟨ip1, mac, reply1⟩, ⟨ip2, mac, reply2⟩]).2 = 1 ∧
    (MACWork.DoWork LookupMacAddress reply1 cache ip1 mac).calls =
      [Call.publishResult
        [("Type", "MAC"), ("IP", ip1), ("MAC", mac), ("MAC Vendor", reply1)]] ∧
    (MACWork.DoWork LookupMacAddress reply2
      (MACWork.DoWork LookupMacAddress reply1 cache ip1 mac).cache ip2 mac).calls =
      [Call.publishResult
        [("Type", "MAC"), ("IP", ip2), ("MAC", mac), ("MAC Vendor", reply1)]] := by
  have h1 : MACWork.DoWork LookupMacAddress reply1 cache ip1 mac =
      { cache := cacheSet cache mac reply1, remoteCalls := 1,
        calls := MACWork.publish ip1 mac reply1 } := by
    rw [macWork_remote LookupMacAddress reply1 cache ip1 mac hstatic (Or.inl hcache)]
    simp [hnf, htmr, hph]
  have h2 : MACWork.DoWork LookupMacAddress reply2 (cacheSet cache mac reply1) ip2 mac =
      { cache := cacheSet cache mac reply1, remoteCalls := 0,
        calls := MACWork.publish ip2 mac reply1 } :=
    macWork_cached LookupMacAddress reply2 _ ip2 mac reply1 hstatic
      (cacheFind_cacheSet_same cache mac reply1) hne
  refine ⟨by rw [h1], by rw [h1, h2], ?_, ?_, ?_⟩
  · simp only [macLookups, h1, h2]
  · rw [h1, macWork_publish_vendor ip1 mac reply1 hne]
  · rw [h1, h2, macWork_publish_vendor ip2 mac reply1 hne]

/-- C12 with an empty static table and an empty cache, for the reply
`Apple, Inc.`; the second lookup would have been told `Other`. -/
theorem C12_mac_cache_one_remote_call_witness :
    (MACWork.DoWork (fun _ => "") "Apple, Inc." [] "10.0.0.1" "AA-BB").remoteCalls = 1 ∧
    (MACWork.DoWork (fun _ => "") "Other"
      (MACWork.DoWork (fun _ => "") "Apple, Inc." [] "10.0.0.1" "AA-BB").cache
        "10.0.0.2" "AA-BB").remoteCalls = 0 ∧
    (macLookups (fun _ => "") []
      [⟨"10.0.0.1", "AA-BB", "Apple, Inc."⟩, ⟨"10.0.0.2", "AA-BB", "Other"⟩]).2 = 1 ∧
    (MACWork.DoWork (fun _ => "") "Apple, Inc." [] "10.0.0.1" "AA-BB").calls =
      [Call.publishResult
        [("Type", "MAC"), ("IP", "10.0.0.1"), ("MAC", "AA-BB"), ("MAC Vendor", "Apple, Inc.")]] ∧
    (MACWork.DoWork (fun _ => "") "Other"
      (MACWork.DoWork (fun _ => "") "Apple, Inc." [] "10.0.0.1" "AA-BB").cache
        "10.0.0.2" "AA-BB").calls =
      [Call.publishResult
        [("Type", "MAC"), ("IP", "10.0.0.2"), ("MAC", "AA-BB"), ("MAC Vendor", "Apple, Inc.")]] :=
  C12_mac_cache_one_remote_call (fun _ => "") [] "10.0.0.1" "10.0.0.2" "AA-BB"
    "Apple, Inc." "Other" rfl rfl (by decide) (by decide) (by decide) (by decide)

theorem macWork_cases (LookupMacAddress : String → String) (reply : String)
    (cache : VendorCache) (ip mac : String) :
    ∃ v1 : String, MACWork.DoWork LookupMacAddress reply cache ip mac =
      if v1 = "" then
        { cache :=
            if (if Contains reply (quoted "Not Found") then ""
                else if Contains reply (quoted "Too Many Requests") then "MAC Lookup Unavailable"
                else reply) ≠ "MAC Lookup Unavailable"
            then cacheSet cache mac
              (if Contains reply (quoted "Not Found") then ""
               else if Contains reply (quoted "Too Many Requests") then "MAC Lookup Unavailable"
               else reply)
            else cache,
          remoteCalls := 1,
          calls := MACWork.publish ip mac
            (if Contains reply (quoted "Not Found") then ""
             else if Contains reply (quoted "Too Many Requests") then "MAC Lookup Unavailable"
             else reply) }
      else { cache := cache, remoteCalls := 0, calls := MACWork.publish ip mac v1 } :=
  ⟨_, rfl⟩

theorem macWork_rate_limited_cache (LookupMacAddress : String → String) (reply : String)
    (cache : VendorCache) (ip mac : String)
    (hnf : Contains reply (quoted "Not Found") = false)
    (htmr : Contains reply (quoted "Too Many Requests") = true) :
    (MACWork.DoWork LookupMacAddress reply cache ip mac).cache = cache := by
  obtain ⟨v1, h⟩ := macWork_cases LookupMacAddress reply cache ip mac
  rw [h]
  by_cases hv : v1 = ""
  · rw [if_pos hv]; simp [hnf, htmr]
  · rw [if_neg hv]

theorem macWork_cache_values (LookupMacAddress : String → String) (reply : String)
    (cache : VendorCache) (ip mac : String) (e : String × String)
    (he : e ∈ (MACWork.DoWork LookupMacAddress reply cache ip mac).cache) :
    e ∈ cache ∨ e.2 ≠ "MAC Lookup Unavailable" := by
  obtain ⟨v1, h⟩ := macWork_cases LookupMacAddress reply cache ip mac
  rw [h] at he
  by_cases hv : v1 = ""
  · rw [if_pos hv] at he
    simp only at he
    generalize (if Contains reply (quoted "Not Found") = true then ""
      else if Contains reply (quoted "Too Many Requests") = true then "MAC Lookup Unavailable"
      else reply) = v2 at he
    by_cases hv2 : v2 ≠ "MAC Lookup Unavailable"
    · rw [if_pos hv2] at he
      rcases mem_cacheSet _ _ _ _ he with h2 | h2
      · exact Or.inl h2
      · exact Or.inr (by rw [h2]; exact hv2)
    · rw [if_neg hv2] at he
      exact Or.inl he
  · rw [if_neg hv] at he
    exact Or.inl he

theorem macLookups_rate_limited (LookupMacAddress : String → String) (mac : String)
    (cache : VendorCache) (hstatic : LookupMacAddress mac = "")
    (hcache : cacheFind cache mac = none ∨ cacheFind cache mac = some "")
    (ls : List MACLookup) :
    (∀ l ∈ ls, l.mac = mac ∧ Contains l.reply (quoted "Not Found") = false ∧
      Contains l.reply (quoted "Too Many Requests") = true) →
    macLookups LookupMacAddress cache ls = (cache, ls.length) := by
  induction ls with
  | nil => intro _; rfl
  | cons l rest ih =>
    intro h
    obtain ⟨hm, hnf, htmr⟩ := h l (List.mem_cons_self _ _)
    have hrest := ih (fun x hx => h x (List.mem_cons_of_mem _ hx))
    have hcall : (MACWork.DoWork LookupMacAddress l.reply cache l.ip l.mac).remoteCalls = 1 := by
      rw [hm, macWork_remote LookupMacAddress l.reply cache l.ip mac hstatic hcache]
    simp only [macLookups, macWork_rate_limited_cache LookupMacAddress l.reply cache l.ip l.mac
      hnf htmr, hrest, hcall, List.length_cons]
    rw [Nat.add_comm]

theorem macLookups_no_placeholder (LookupMacAddress : String → String)
    (ls : List MACLookup) : ∀ cache : VendorCache,
    (∀ e ∈ cache, e.2 ≠ "MAC Lookup Unavailable") →
    ∀ e ∈ (macLookups LookupMacAddress cache ls).1, e.2 ≠ "MAC Lookup Unavailable" := by
  induction ls with
  | nil => intro cache h; exact h
  | cons l rest ih =>
    intro cache h
    simp only [macLookups]
    apply ih
    intro e he
    rcases macWork_cache_values LookupMacAddress l.reply cache l.ip l.mac e he with h2 | h2
    · exact h e h2
    · exact h2

/-- C13: the placeholder is never written into the vendor cache.  A lookup
whose remote reply is the Too Many Requests reply leaves the cache as it was;
so for a MAC that the static table does not know and the cache does not
resolve, every lookup in a run of such replies makes the remote call again;
and a cache without the placeholder stays without it over every sequence of
lookups. -/
theorem C13_placeholder_never_cached (LookupMacAddress : String → String) :
    (∀ (cache : VendorCache) (ip mac reply : String),
      Contains reply (quoted "Not Found") = false →
      Contains reply (quoted "Too Many Requests") = true →
      (MACWork.DoWork LookupMacAddress reply cache ip mac).cache = cache) ∧
    (∀ (cache : VendorCache) (mac : String) (ls : List MACLookup),
      LookupMacAddress mac = "" →
      (cacheFind cache mac = none ∨ cacheFind cache mac = some "") →
      (∀ l ∈ ls, l.mac = mac ∧ Contains l.reply (quoted "Not Found") = false ∧
        Contains l.reply (quoted "Too Many Requests") = true) →
      macLookups LookupMacAddress cache ls = (cache, ls.length)) ∧
    (∀ (cache : VendorCache) (ls : List MACLookup),
      (∀ e ∈ cache, e.2 ≠ "MAC Lookup Unavailable") →
      ∀ e ∈ (macLookups LookupMacAddress cache ls).1, e.2 ≠ "MAC Lookup Unavailable") :=
  ⟨fun cache ip mac reply hnf htmr =>
     macWork_rate_limited_cache LookupMacAddress reply cache ip mac hnf htmr,
   fun cache mac ls hstatic hcache hls =>
     macLookups_rate_limited LookupMacAddress mac cache hstatic hcache ls hls,
   fun cache ls h => macLookups_no_placeholder LookupMacAddress ls cache h⟩

/-- C13 with an empty static table: one rate-limited lookup on a cache that
holds another MAC, three rate-limited lookups in a row on the empty cache,
and a mixed sequence of lookups starting from the empty cache. -/
theorem C13_placeholder_never_cached_witness :
    (MACWork.DoWork (fun _ => "") (quoted "Too Many Requests") [("CC-DD", "Acme")]
      "10.0.0.1" "AA-BB").cache = [("CC-DD", "Acme")] ∧
    macLookups (fun _ => "") []
      [⟨"10.0.0.1", "AA-BB", quoted "Too Many Requests"⟩,
       ⟨"10.0.0.1", "AA-BB", quoted "Too Many Requests"⟩,
       ⟨"10.0.0.2", "AA-BB", quoted "Too Many Requests"⟩] = ([], 3) ∧
    (∀ e ∈ (macLookups (fun _ => "") []
      [⟨"10.0.0.1", "AA-BB", quoted "Too Many Requests"⟩,
       ⟨"10.0.0.1", "AA-BB", "MAC Lookup Unavailable"⟩,
       ⟨"10.0.0.3", "CC-DD", "Acme"⟩]).1, e.2 ≠ "MAC Lookup Unavailable") :=
  ⟨(C13_placeholder_never_cached (fun _ => "")).1 [("CC-DD", "Acme")] "10.0.0.1" "AA-BB"
     (quoted "Too Many Requests") (by decide) (by decide),
   (C13_placeholder_never_cached (fun _ => "")).2.1 [] "AA-BB" _ rfl (Or.inl rfl) (by decide),
   (C13_placeholder_never_cached (fun _ => "")).2.2 [] _ (by decide)⟩

/-- C14, as the claim states it, fails: with an empty static table and an
empty cache, a lookup whose remote reply is the Not Found reply leaves the
cache holding an entry for that MAC, with the empty string as its value. -/
theorem C14_not_found_stores_entry_counterexample :
    Contains (quoted "Not Found") (quoted "Not Found") = true ∧
    (MACWork.DoWork (fun _ => "") (quoted "Not Found") [] "10.0.0.1" "AA-BB").cache =
      [("AA-BB", "")] ∧
    (MACWork.DoWork (fun _ => "") (quoted "Not Found") [] "10.0.0.1" "AA-BB").cache ≠ [] := by
  decide

/-- C14, amended: for a MAC that the static table does not know and the cache
does not resolve, a lookup whose remote reply is the Not Found reply makes the
remote call, reports the record without a vendor, and leaves in the cache the
empty string for that MAC, every other MAC's entry being as before; the empty
string is read like a missing entry, so the next lookup of the same MAC makes
the remote call again. -/
theorem C14_not_found_caches_empty_and_retries (LookupMacAddress : String → String)
    (cache : VendorCache) (ip mac reply : String)
    (hstatic : LookupMacAddress mac = "")
    (hcache : cacheFind cache mac = none ∨ cacheFind cache mac = some "")
    (hnf : Contains reply (quoted "Not Found") = true) :
    (MACWork.DoWork LookupMacAddress reply cache ip mac).remoteCalls = 1 ∧
    (MACWork.DoWork LookupMacAddress reply cache ip mac).calls =
      [Call.publishResult [("Type", "MAC"), ("IP", ip), ("MAC", mac)]] ∧
    cacheFind (MACWork.DoWork LookupMacAddress reply cache ip mac).cache mac = some "" ∧
    (∀ other : String, other ≠ mac →
      cacheFind (MACWork.DoWork LookupMacAddress reply cache ip mac).cache other =
        cacheFind cache other) ∧
    (∀ ip2 reply2 : String,
      (MACWork.DoWork LookupMacAddress reply2
        (MACWork.DoWork LookupMacAddress reply cache ip mac).cache ip2 mac).remoteCalls = 1) := by
  have h1 : MACWork.DoWork LookupMacAddress reply cache ip mac =
      { cache := cacheSet cache mac "", remoteCalls := 1, calls := MACWork.publish ip mac "" } := by
    rw [macWork_remote LookupMacAddress reply cache ip mac hstatic hcache]
    simp [hnf]
  rw [h1]
  refine ⟨rfl, macWork_publish_empty ip mac, cacheFind_cacheSet_same cache mac "",
    fun other hne => cacheFind_cacheSet_other cache mac "" other hne, ?_⟩
  intro ip2 reply2
  rw [macWork_remote LookupMacAddress reply2 _ ip2 mac hstatic
    (Or.inr (cacheFind_cacheSet_same cache mac ""))]

/-- C14 amended, with an empty static table and a cache that holds another
MAC. -/
theorem C14_not_found_caches_empty_and_retries_witness :
    (MACWork.DoWork (fun _ => "") (quoted "Not Found") [("CC-DD", "Acme")]
      "10.0.0.1" "AA-BB").remoteCalls = 1 ∧
    (MACWork.DoWork (fun _ => "") (quoted "Not Found") [("CC-DD", "Acme")]
      "10.0.0.1" "AA-BB").calls =
      [Call.publishResult [("Type", "MAC"), ("IP", "10.0.0.1"), ("MAC", "AA-BB")]] ∧
    cacheFind (MACWork.DoWork (fun _ => "") (quoted "Not Found") [("CC-DD", "Acme")]
      "10.0.0.1" "AA-BB").cache "AA-BB" = some "" ∧
    (∀ other : String, other ≠ "AA-BB" →
      cacheFind (MACWork.DoWork (fun _ => "") (quoted "Not Found") [("CC-DD", "Acme")]
        "10.0.0.1" "AA-BB").cache other = cacheFind [("CC-DD", "Acme")] other) ∧
    (∀ ip2 reply2 : String,
      (MACWork.DoWork (fun _ => "") reply2
        (MACWork.DoWork (fun _ => "") (quoted "Not Found") [("CC-DD", "Acme")]
          "10.0.0.1" "AA-BB").cache ip2 "AA-BB").remoteCalls = 1) :=
  C14_not_found_caches_empty_and_retries (fun _ => "") [("CC-DD", "Acme")] "10.0.0.1" "AA-BB"
    (quoted "Not Found") rfl (Or.inl (by decide)) (by decide)

/-! ## The wait loop of the local-machine probe -/

theorem stopsAfterCancel_of_all (l : List LoopEvent)
    (h : ∀ x ∈ l, x = LoopEvent.check true) : stopsAfterCancel l := by
  induction l with
  | nil => trivial
  | cons e rest ih =>
    exact ⟨fun _ x hx => h x (List.mem_cons_of_mem _ hx),
      ih (fun x hx => h x (List.mem_cons_of_mem _ hx))⟩

theorem stopsAfterCancel_split (l : List LoopEvent) (h : stopsAfterCancel l) :
    ∀ pre post : List LoopEvent, l = pre ++ LoopEvent.check true :: post →
      ∀ x ∈ post, x = LoopEvent.check true := by
  induction l with
  | nil =>
    intro pre post e
    exact absurd e (by simp)
  | cons a rest ih =>
    intro pre post e
    cases pre with
    | nil =>
      rw [List.nil_append] at e
      have h1 := List.cons.inj e
      rw [← h1.2]
      exact h.1 h1.1
    | cons b pre =>
      rw [List.cons_append] at e
      exact ih h.2 pre post (List.cons.inj e).2

theorem sleepLoop_cancelled (terminate : Nat → Bool)
    (hmono : ∀ a b, a ≤ b → terminate a = true → terminate b = true) (n : Nat) :
    ∀ j r : Nat, 1500 - j = n →
      LoopEvent.check true ∈ (sleepLoop terminate j r).2 →
      ∀ m, (sleepLoop terminate j r).1 ≤ m → terminate m = true := by
  induction n with
  | zero =>
    intro j r hj hmem
    rw [sleepLoop, if_neg (by omega)] at hmem
    exact absurd hmem (List.not_mem_nil _)
  | succ n ih =>
    intro j r hj
    have hlt : j < 1500 := by omega
    have hmod : (j + 1) % 4294967296 = j + 1 := Nat.mod_eq_of_lt (by omega)
    rw [sleepLoop, if_pos hlt, hmod]
    by_cases ht : terminate r = true
    · rw [if_pos ht]
      intro _ m hm
      exact hmono r m (by simp only at hm; omega) ht
    · rw [if_neg ht]
      intro hmem m hm
      simp at hmem
      exact ih (j + 1) (r + 1) (by omega) hmem m hm

theorem sleepLoop_stops (terminate : Nat → Bool) (X : List LoopEvent) (n : Nat) :
    ∀ j r : Nat, 1500 - j = n → stopsAfterCancel X →
      (LoopEvent.check true ∈ (sleepLoop terminate j r).2 → ∀ x ∈ X, x = LoopEvent.check true) →
      stopsAfterCancel ((sleepLoop terminate j r).2 ++ X) := by
  induction n with
  | zero =>
    intro j r hj hX _
    rw [sleepLoop, if_neg (by omega)]
    exact hX
  | succ n ih =>
    intro j r hj hX
    have hlt : j < 1500 := by omega
    have hmod : (j + 1) % 4294967296 = j + 1 := Nat.mod_eq_of_lt (by omega)
    rw [sleepLoop, if_pos hlt, hmod]
    by_cases ht : terminate r = true
    · rw [if_pos ht]
      intro hall
      exact ⟨fun _ => hall (List.mem_singleton.2 rfl), hX⟩
    · rw [if_neg ht]
      intro hall
      refine ⟨fun e => absurd e (by simp), fun e => absurd e (by simp), ?_⟩
      exact ih (j + 1) (r + 1) (by omega) hX
        (fun hmem => hall (List.mem_cons_of_mem _ (List.mem_cons_of_mem _ hmem)))

theorem workIsGuarded_check (b : Bool) (l : List LoopEvent) (h : workIsGuarded l) :
    workIsGuarded (LoopEvent.check b :: l) := by
  cases l with
  | nil => cases b <;> simp [workIsGuarded]
  | cons e rest =>
    cases e with
    | check c => cases b <;> simpa [workIsGuarded] using h
    | sleep ms => simp [workIsGuarded] at h
    | scanARP => simp [workIsGuarded] at h

theorem sleepLoop_guarded (terminate : Nat → Bool) (X : List LoopEvent) (n : Nat) :
    ∀ j r : Nat, 1500 - j = n → workIsGuarded X →
      workIsGuarded ((sleepLoop terminate j r).2 ++ X) := by
  induction n with
  | zero =>
    intro j r hj hX
    rw [sleepLoop, if_neg (by omega)]
    exact hX
  | succ n ih =>
    intro j r hj hX
    have hlt : j < 1500 := by omega
    have hmod : (j + 1) % 4294967296 = j + 1 := Nat.mod_eq_of_lt (by omega)
    rw [sleepLoop, if_pos hlt, hmod]
    by_cases ht : terminate r = true
    · rw [if_pos ht]
      exact hX
    · rw [if_neg ht]
      exact ih (j + 1) (r + 1) (by omega) hX

theorem waitLoop_after_cancel (terminate : Nat → Bool) (i r : Nat)
    (h : ∀ m, r ≤ m → terminate m = true) :
    ∀ x ∈ waitLoop terminate i r, x = LoopEvent.check true := by
  rw [waitLoop]
  by_cases hi : i < 40
  · rw [if_pos hi, if_pos (h r (Nat.le_refl r))]
    intro x hx
    exact List.mem_singleton.1 hx
  · rw [if_neg hi]
    intro x hx
    exact absurd hx (List.not_mem_nil _)

theorem waitLoop_behaves (terminate : Nat → Bool)
    (hmono : ∀ a b, a ≤ b → terminate a = true → terminate b = true) (n : Nat) :
    ∀ i r : Nat, 40 - i = n →
      stopsAfterCancel (waitLoop terminate i r) ∧ workIsGuarded (waitLoop terminate i r) := by
  induction n with
  | zero =>
    intro i r hi
    rw [waitLoop, if_neg (by omega)]
    exact ⟨trivial, trivial⟩
  | succ n ih =>
    intro i r hi
    have hlt : i < 40 := by omega
    rw [waitLoop, if_pos hlt]
    by_cases ht : terminate r = true
    · rw [if_pos ht]
      exact ⟨⟨fun _ x hx => absurd hx (List.not_mem_nil _), trivial⟩, trivial⟩
    · rw [if_neg ht]
      have hrec := ih (i + 1) ((sleepLoop terminate 0 (r + 1)).1 + 1) (by omega)
      by_cases ht2 : terminate (sleepLoop terminate 0 (r + 1)).1 = true
      · rw [if_pos ht2]
        have hdead : ∀ x ∈ LoopEvent.check true ::
            waitLoop terminate (i + 1) ((sleepLoop terminate 0 (r + 1)).1 + 1),
            x = LoopEvent.check true := by
          intro x hx
          rcases List.mem_cons.1 hx with hx | hx
          · exact hx
          · exact waitLoop_after_cancel terminate _ _
              (fun m hm => hmono _ m (by omega) ht2) x hx
        constructor
        · refine ⟨fun e => absurd e (by simp), ?_⟩
          exact sleepLoop_stops terminate _ 1500 0 (r + 1) rfl
            (stopsAfterCancel_of_all _ hdead) (fun _ => hdead)
        · exact workIsGuarded_check false _
            (sleepLoop_guarded terminate _ 1500 0 (r + 1) rfl
              (workIsGuarded_check true _ hrec.2))
      · rw [if_neg ht2]
        constructor
        · refine ⟨fun e => absurd e (by simp), ?_⟩
          refine sleepLoop_stops terminate _ 1500 0 (r + 1) rfl
            ⟨fun e => absurd e (by simp), fun e => absurd e (by simp), hrec.1⟩ ?_
          intro hmem
          exact absurd (sleepLoop_cancelled terminate hmono 1500 0 (r + 1) rfl hmem _
            (Nat.le_refl _)) ht2
        · exact workIsGuarded_check false _
            (sleepLoop_guarded terminate _ 1500 0 (r + 1) rfl hrec.2)

/-- C15: whenever the terminate flag, once set, stays set, the wait loop of
`ComputerWork::DoWork` terminates and, after the first read of the flag that
sees it set, does nothing but read the flag again: no further sleep increment
is started and `ScanARP` is not run, at whichever read the flag is first seen
set.  Every sleep increment and every `ScanARP` comes directly after a read
that saw the flag clear, so at most the increment already started when the
flag is set still runs. -/
theorem C15_waitLoop_stops_after_cancel (terminate : Nat → Bool)
    (hmono : ∀ a b, a ≤ b → terminate a = true → terminate b = true) :
    (∀ pre post : List LoopEvent,
      waitLoop terminate 0 0 = pre ++ LoopEvent.check true :: post →
      ∀ x ∈ post, x = LoopEvent.check true) ∧
    workIsGuarded (waitLoop terminate 0 0) :=
  ⟨stopsAfterCancel_split _ (waitLoop_behaves terminate hmono 40 0 0 rfl).1,
   (waitLoop_behaves terminate hmono 40 0 0 rfl).2⟩

/-- C15 for a flag that is set between the third and the fourth read, during
the second sleep increment: the loop's events are evaluated, and nothing but
reads follows the first read that sees the flag. -/
theorem C15_waitLoop_stops_after_cancel_witness :
    waitLoop (fun n => decide (3 ≤ n)) 0 0 =
      [LoopEvent.check false, LoopEvent.check false, LoopEvent.sleep 10,
       LoopEvent.check false, LoopEvent.sleep 10, LoopEvent.check true,
       LoopEvent.check true, LoopEvent.check true] ∧
    (∀ pre post : List LoopEvent,
      waitLoop (fun n => decide (3 ≤ n)) 0 0 = pre ++ LoopEvent.check true :: post →
      ∀ x ∈ post, x = LoopEvent.check true) ∧
    workIsGuarded (waitLoop (fun n => decide (3 ≤ n)) 0 0) :=
  ⟨by simp [waitLoop, sleepLoop],
   C15_waitLoop_stops_after_cancel (fun n => decide (3 ≤ n))
     (fun a b hab h => by simp only [decide_eq_true_eq] at h ⊢; omega)⟩

theorem flatten_replicate_succ (n : Nat) (l : List LoopEvent) :
    (List.replicate (n + 1) l).flatten = l ++ (List.replicate n l).flatten := by
  rw [List.replicate_succ, List.flatten_cons]

theorem sleepLoop_never (terminate : Nat → Bool) (hnever : ∀ n, terminate n = false)
    (n : Nat) : ∀ j r : Nat, 1500 - j = n →
    sleepLoop terminate j r =
      (r + n, (List.replicate n [LoopEvent.check false, LoopEvent.sleep 10]).flatten) := by
  induction n with
  | zero =>
    intro j r hj
    rw [sleepLoop, if_neg (by omega)]
    rfl
  | succ n ih =>
    intro j r hj
    have hlt : j < 1500 := by omega
    have hmod : (j + 1) % 4294967296 = j + 1 := Nat.mod_eq_of_lt (by omega)
    rw [sleepLoop, if_pos hlt, hmod, hnever r, ih (j + 1) (r + 1) (by omega),
      flatten_replicate_succ n]
    simp only [Bool.false_eq_true, if_false, List.cons_append, List.nil_append]
    congr 1
    omega

theorem waitLoop_never (terminate : Nat → Bool) (hnever : ∀ n, terminate n = false)
    (n : Nat) : ∀ i r : Nat, 40 - i = n →
    waitLoop terminate i r =
      (List.replicate n (LoopEvent.check false ::
        ((List.replicate 1500 [LoopEvent.check false, LoopEvent.sleep 10]).flatten ++
          [LoopEvent.check false, LoopEvent.scanARP]))).flatten := by
  induction n with
  | zero =>
    intro i r hi
    rw [waitLoop, if_neg (by omega)]
    rfl
  | succ n ih =>
    intro i r hi
    have hlt : i < 40 := by omega
    rw [waitLoop, if_pos hlt, hnever r, sleepLoop_never terminate hnever 1500 0 (r + 1) rfl,
      hnever, ih (i + 1) _ (by omega), flatten_replicate_succ n]
    simp only [Bool.false_eq_true, if_false, List.cons_append, List.append_assoc,
      List.nil_append]

theorem sleptMs_append (a b : List LoopEvent) : sleptMs (a ++ b) = sleptMs a + sleptMs b := by
  induction a with
  | nil => simp [sleptMs]
  | cons e rest ih =>
    cases e with
    | check c => simpa [sleptMs] using ih
    | sleep ms => simp [sleptMs, ih, Nat.add_assoc]
    | scanARP => simpa [sleptMs] using ih

theorem sleptMs_replicate_flatten (n : Nat) (l : List LoopEvent) :
    sleptMs (List.replicate n l).flatten = n * sleptMs l := by
  induction n with
  | zero => simp [sleptMs]
  | succ n ih =>
    rw [flatten_replicate_succ, sleptMs_append, ih, Nat.succ_mul, Nat.add_comm]

theorem count_replicate_flatten (n : Nat) (l : List LoopEvent) (e : LoopEvent) :
    (List.replicate n l).flatten.count e = n * l.count e := by
  induction n with
  | zero => simp
  | succ n ih =>
    rw [flatten_replicate_succ, List.count_append, ih, Nat.succ_mul, Nat.add_comm]

theorem waitLoop_never_totals (terminate : Nat → Bool) (hnever : ∀ n, terminate n = false) :
    sleptMs (waitLoop terminate 0 0) = 600000 ∧
    (waitLoop terminate 0 0).count (LoopEvent.sleep 10) = 60000 ∧
    (waitLoop terminate 0 0).count LoopEvent.scanARP = 40 := by
  rw [waitLoop_never terminate hnever 40 0 0 rfl]
  refine ⟨?_, ?_, ?_⟩
  · rw [sleptMs_replicate_flatten]
    have h : sleptMs (LoopEvent.check false ::
        ((List.replicate 1500 [LoopEvent.check false, LoopEvent.sleep 10]).flatten ++
          [LoopEvent.check false, LoopEvent.scanARP])) = 15000 := by
      change sleptMs ((List.replicate 1500 [LoopEvent.check false, LoopEvent.sleep 10]).flatten ++
          [LoopEvent.check false, LoopEvent.scanARP]) = 15000
      rw [sleptMs_append, sleptMs_replicate_flatten]
      rfl
    rw [h]
  · rw [count_replicate_flatten, List.count_cons, List.count_append, count_replicate_flatten]
    simp [List.count_cons]
  · rw [count_replicate_flatten, List.count_cons, List.count_append, count_replicate_flatten]
    simp [List.count_cons]

/-- C16, as the claim states it, fails: when the flag is never set, the sleep
increments of the wait loop add up to 600000 ms, that is 600 seconds, half as
much again as 400 seconds. -/
theorem C16_total_sleep_counterexample :
    sleptMs (waitLoop (fun _ => false) 0 0) = 600000 ∧
    sleptMs (waitLoop (fun _ => false) 0 0) ≠ 400000 ∧
    2 * sleptMs (waitLoop (fun _ => false) 0 0) = 3 * 400000 := by
  have h := (waitLoop_never_totals (fun _ => false) (fun _ => rfl)).1
  rw [h]
  decide

/-- C16, amended: when the flag is never set, the wait loop runs 40 rounds,
each made of 1500 sleep increments of 10 ms, every one after a read of the
flag, followed by one `ScanARP`; the 60000 increments add up to 600000 ms
(600 seconds), and `ScanARP` runs 40 times, once after each group of 1500
increments. -/
theorem C16_waitLoop_sleeps_600_seconds (terminate : Nat → Bool)
    (hnever : ∀ n, terminate n = false) :
    waitLoop terminate 0 0 =
      (List.replicate 40 (LoopEvent.check false ::
        ((List.replicate 1500 [LoopEvent.check false, LoopEvent.sleep 10]).flatten ++
          [LoopEvent.check false, LoopEvent.scanARP]))).flatten ∧
    sleptMs (waitLoop terminate 0 0) = 600000 ∧
    (waitLoop terminate 0 0).count (LoopEvent.sleep 10) = 60000 ∧
    (waitLoop terminate 0 0).count LoopEvent.scanARP = 40 :=
  ⟨waitLoop_never terminate hnever 40 0 0 rfl, waitLoop_never_totals terminate hnever⟩

/-- C16 amended, for the flag that no read ever sees set. -/
theorem C16_waitLoop_sleeps_600_seconds_witness :
    waitLoop (fun _ => false) 0 0 =
      (List.replicate 40 (LoopEvent.check false ::
        ((List.replicate 1500 [LoopEvent.check false, LoopEvent.sleep 10]).flatten ++
          [LoopEvent.check false, LoopEvent.scanARP]))).flatten ∧
    sleptMs (waitLoop (fun _ => false) 0 0) = 600000 ∧
    (waitLoop (fun _ => false) 0 0).count (LoopEvent.sleep 10) = 60000 ∧
    (waitLoop (fun _ => false) 0 0).count LoopEvent.scanARP = 40 :=
  C16_waitLoop_sleeps_600_seconds (fun _ => false) (fun _ => rfl)

/-! ## ARP correlation -/

theorem spawnedMacs_append (a b : List Call) :
    spawnedMacs (a ++ b) = spawnedMacs a ++ spawnedMacs b := by
  induction a with
  | nil => rfl
  | cons c rest ih =>
    cases c with
    | addWork w =>
      cases w <;> simp [spawnedMacs, ih]
    | addFoundIP ip => simpa [spawnedMacs] using ih
    | addHTTP ip port proxy => simpa [spawnedMacs] using ih
    | addIP ip why proxy => simpa [spawnedMacs] using ih
    | addClassDSubnet ip proxy => simpa [spawnedMacs] using ih
    | publishResult out => simpa [spawnedMacs] using ih

theorem spawnedMacs_addIP (arps : ArpTable) :
    spawnedMacs (arps.map (fun e => Call.addIP e.1 "ARP" "")) = [] := by
  induction arps with
  | nil => rfl
  | cons e rest ih => simpa [spawnedMacs] using ih

theorem scanFound_cons (arps : ArpTable) (it : String) (rest macsDone : List String) :
    scanFound arps (it :: rest) macsDone =
      ((match arpFind arps it with
          | some mac => if mac ∈ macsDone then [] else [Call.addWork (Work.mac it mac)]
          | none => []) ++
        (scanFound arps rest
          (match arpFind arps it with
            | some mac => if mac ∈ macsDone then macsDone else macsDone ++ [mac]
            | none => macsDone)).1,
       (scanFound arps rest
          (match arpFind arps it with
            | some mac => if mac ∈ macsDone then macsDone else macsDone ++ [mac]
            | none => macsDone)).2) := by
  rw [scanFound]
  cases h : arpFind arps it with
  | none => simp
  | some mac =>
    by_cases hm : mac ∈ macsDone
    · simp [hm]
    · simp [hm]

theorem scanFound_append (arps : ArpTable) (pre : List String) :
    ∀ (post macsDone : List String),
    scanFound arps (pre ++ post) macsDone =
      ((scanFound arps pre macsDone).1 ++
          (scanFound arps post (scanFound arps pre macsDone).2).1,
       (scanFound arps post (scanFound arps pre macsDone).2).2) := by
  induction pre with
  | nil => intro post macsDone; simp [scanFound]
  | cons it pre ih =>
    intro post macsDone
    rw [List.cons_append, scanFound_cons, scanFound_cons, ih]
    simp

theorem scanFound_done (arps : ArpTable) (found : List String) :
    ∀ macsDone : List String,
    (scanFound arps found macsDone).2 = macsDone ++ spawnedMacs (scanFound arps found macsDone).1 := by
  induction found with
  | nil => intro macsDone; simp [scanFound, spawnedMacs]
  | cons it rest ih =>
    intro macsDone
    rw [scanFound_cons]
    cases h : arpFind arps it with
    | none => simpa using ih macsDone
    | some mac =>
      by_cases hm : mac ∈ macsDone
      · simpa [hm] using ih macsDone
      · simp only [hm, if_false, List.singleton_append, spawnedMacs]
        rw [ih (macsDone ++ [mac])]
        simp

theorem scanFound_nodup (arps : ArpTable) (found : List String) :
    ∀ macsDone : List String, macsDone.Nodup → (scanFound arps found macsDone).2.Nodup := by
  induction found with
  | nil => intro macsDone h; simpa [scanFound] using h
  | cons it rest ih =>
    intro macsDone h
    rw [scanFound_cons]
    cases harp : arpFind arps it with
    | none => exact ih macsDone h
    | some mac =>
      by_cases hm : mac ∈ macsDone
      · simpa [hm] using ih macsDone h
      · simp only [hm, if_false]
        apply ih
        rw [List.nodup_append]
        refine ⟨h, List.nodup_singleton mac, ?_⟩
        intro x hx hx2
        rw [List.mem_singleton] at hx2
        exact hm (hx2 ▸ hx)

theorem scanFound_sound (arps : ArpTable) (found : List String) :
    ∀ (macsDone : List String) (ip mac : String),
    Call.addWork (Work.mac ip mac) ∈ (scanFound arps found macsDone).1 →
    ip ∈ found ∧ arpFind arps ip = some mac ∧ mac ∉ macsDone := by
  induction found with
  | nil => intro macsDone ip mac h; simp [scanFound] at h
  | cons it rest ih =>
    intro macsDone ip mac h
    rw [scanFound_cons] at h
    cases harp : arpFind arps it with
    | none =>
      rw [harp] at h
      obtain ⟨h1, h2, h3⟩ := ih macsDone ip mac (by simpa using h)
      exact ⟨List.mem_cons_of_mem _ h1, h2, h3⟩
    | some m =>
      rw [harp] at h
      by_cases hm : m ∈ macsDone
      · obtain ⟨h1, h2, h3⟩ := ih macsDone ip mac (by simpa [hm] using h)
        exact ⟨List.mem_cons_of_mem _ h1, h2, h3⟩
      · simp only [hm, if_false, List.singleton_append, List.mem_cons] at h
        rcases h with h | h
        · have hw := Call.addWork.inj h
          have hip : ip = it := (Work.mac.inj hw).1
          have hmac : mac = m := (Work.mac.inj hw).2
          rw [hip, hmac]
          exact ⟨List.mem_cons_self _ _, harp, hm⟩
        · obtain ⟨h1, h2, h3⟩ := ih (macsDone ++ [m]) ip mac h
          exact ⟨List.mem_cons_of_mem _ h1, h2,
            fun hx => h3 (List.mem_append.2 (Or.inl hx))⟩

theorem scanARPPasses_done (passes : List ArpPass) :
    ∀ macsDone : List String,
    (scanARPPasses passes macsDone).2 =
      macsDone ++ spawnedMacs (scanARPPasses passes macsDone).1 := by
  induction passes with
  | nil => intro macsDone; simp [scanARPPasses, spawnedMacs]
  | cons p rest ih =>
    intro macsDone
    simp only [scanARPPasses, ComputerWork.ScanARP]
    rw [ih, scanFound_done, spawnedMacs_append, spawnedMacs_append, spawnedMacs_addIP]
    simp

theorem scanARPPasses_nodup (passes : List ArpPass) :
    ∀ macsDone : List String, macsDone.Nodup → (scanARPPasses passes macsDone).2.Nodup := by
  induction passes with
  | nil => intro macsDone h; simpa [scanARPPasses] using h
  | cons p rest ih =>
    intro macsDone h
    simp only [scanARPPasses, ComputerWork.ScanARP]
    exact ih _ (scanFound_nodup p.arps p.found macsDone h)

theorem scanARPPasses_addIP (passes : List ArpPass) :
    ∀ macsDone : List String, ∀ p ∈ passes, ∀ e ∈ p.arps,
      Call.addIP e.1 "ARP" "" ∈ (scanARPPasses passes macsDone).1 := by
  induction passes with
  | nil => intro macsDone p hp; exact absurd hp (List.not_mem_nil _)
  | cons q rest ih =>
    intro macsDone p hp e he
    simp only [scanARPPasses, ComputerWork.ScanARP]
    rcases List.mem_cons.1 hp with hp | hp
    · apply List.mem_append_left
      apply List.mem_append_right
      rw [← hp]
      exact List.mem_map.2 ⟨e, he, rfl⟩
    · exact List.mem_append_right _ (ih _ p hp e he)

/-- C18: over any sequence of `ScanARP` passes of one probe, whatever ARP
tables and found hosts they meet, the MACs of the `MACWork` items spawned are,
in order, exactly the processed-MAC list, which holds no duplicate, so no MAC
gets a second lookup; every ARP entry of every pass is passed to `AddIP` with
the reason ARP.  Within a pass, when the first loop reaches a found host, it
spawns a `MACWork` for it exactly when the host has an ARP entry whose MAC is
not in the processed list as it then stands, and in that case appends the MAC
to the list; the `AddIP` calls follow, one per ARP entry. -/
theorem C18_scanARP_one_lookup_per_mac (passes : List ArpPass) :
    spawnedMacs (scanARPPasses passes []).1 = (scanARPPasses passes []).2 ∧
    (scanARPPasses passes []).2.Nodup ∧
    (∀ p ∈ passes, ∀ e ∈ p.arps,
      Call.addIP e.1 "ARP" "" ∈ (scanARPPasses passes []).1) ∧
    (∀ (arps : ArpTable) (pre post : List String) (it : String) (macsDone : List String),
      ComputerWork.ScanARP arps (pre ++ it :: post) macsDone =
        ((scanFound arps pre macsDone).1 ++
          ((match arpFind arps it with
            | some mac =>
              if mac ∈ (scanFound arps pre macsDone).2 then []
              else [Call.addWork (Work.mac it mac)]
            | none => []) ++
          (scanFound arps post
            (match arpFind arps it with
              | some mac =>
                if mac ∈ (scanFound arps pre macsDone).2 then (scanFound arps pre macsDone).2
                else (scanFound arps pre macsDone).2 ++ [mac]
              | none => (scanFound arps pre macsDone).2)).1) ++
          arps.map (fun e => Call.addIP e.1 "ARP" ""),
         (scanFound arps post
            (match arpFind arps it with
              | some mac =>
                if mac ∈ (scanFound arps pre macsDone).2 then (scanFound arps pre macsDone).2
                else (scanFound arps pre macsDone).2 ++ [mac]
              | none => (scanFound arps pre macsDone).2)).2)) ∧
    (∀ (arps : ArpTable) (found macsDone : List String) (ip mac : String),
      Call.addWork (Work.mac ip mac) ∈ (ComputerWork.ScanARP arps found macsDone).1 →
      ip ∈ found ∧ arpFind arps ip = some mac ∧ mac ∉ macsDone) := by
  refine ⟨?_, scanARPPasses_nodup passes [] List.nodup_nil, scanARPPasses_addIP passes [], ?_, ?_⟩
  · have h := scanARPPasses_done passes []
    rw [List.nil_append] at h
    exact h.symm
  · intro arps pre post it macsDone
    unfold ComputerWork.ScanARP
    rw [scanFound_append, scanFound_cons]
  · intro arps found macsDone ip mac h
    unfold ComputerWork.ScanARP at h
    simp only [List.mem_append, List.mem_map, reduceCtorEq, and_false, exists_false,
      or_false] at h
    exact scanFound_sound arps found macsDone ip mac h

/-- C18 for two passes: in the first, two found hosts share the MAC `AA`; in
the second, a host with the new MAC `BB` has been found.  The calls and the
processed list are evaluated. -/
theorem C18_scanARP_one_lookup_per_mac_witness :
    scanARPPasses
      [⟨[("10.0.0.1", "AA"), ("10.0.0.2", "AA"), ("10.0.0.3", "BB")],
        ["10.0.0.2", "10.0.0.1", "10.0.0.9"]⟩,
       ⟨[("10.0.0.1", "AA"), ("10.0.0.3", "BB")], ["10.0.0.2", "10.0.0.1", "10.0.0.3"]⟩] [] =
      ([Call.addWork (Work.mac "10.0.0.2" "AA"),
        Call.addIP "10.0.0.1" "ARP" "", Call.addIP "10.0.0.2" "ARP" "",
        Call.addIP "10.0.0.3" "ARP" "",
        Call.addWork (Work.mac "10.0.0.3" "BB"),
        Call.addIP "10.0.0.1" "ARP" "", Call.addIP "10.0.0.3" "ARP" ""],
       ["AA", "BB"]) ∧
    (Call.addWork (Work.mac "10.0.0.2" "AA") ∈
        (ComputerWork.ScanARP [("10.0.0.1", "AA"), ("10.0.0.2", "AA"), ("10.0.0.3", "BB")]
          ["10.0.0.2", "10.0.0.1", "10.0.0.9"] []).1 ∧
      "10.0.0.2" ∈ ["10.0.0.2", "10.0.0.1", "10.0.0.9"] ∧
      arpFind [("10.0.0.1", "AA"), ("10.0.0.2", "AA"), ("10.0.0.3", "BB")] "10.0.0.2" =
        some "AA" ∧
      "AA" ∉ ([] : List String)) :=
  ⟨by decide, by decide,
   (C18_scanARP_one_lookup_per_mac []).2.2.2.2
     [("10.0.0.1", "AA"), ("10.0.0.2", "AA"), ("10.0.0.3", "BB")]
     ["10.0.0.2", "10.0.0.1", "10.0.0.9"] [] "10.0.0.2" "AA" (by decide)⟩

/-! ## The FPP probe -/

theorem fppWork_empty_wifi_reply (DecodeWifiStrength : Int → String) (ip : String)
    (net : List FPPInterface) (wifi : Option (List WifiLevel)) :
    FPPWork.calls DecodeWifiStrength ip (fppRepliesOf net "" wifi) =
      [Call.publishResult [("IP", ip), ("Type", "FPP")]] := by
  have hmark : Contains "[ operstate ]" "operstate" = true := by decide
  simp [FPPWork.calls, fppRepliesOf, hmark, ScanWork.publishCalls, mergedRecord, mergeLoop,
    keyFound]

theorem fppInterfaces_addIP (DecodeWifiStrength : Int → String) (wifi : Option (List WifiLevel))
    (net : List FPPInterface) : ∀ (ii : Int) (n : FPPInterface), n ∈ net →
    n.operstate = "UP" → n.iip ≠ "" → n.label ≠ "" →
    Call.addIP n.iip "" "" ∈ (fppInterfaces DecodeWifiStrength wifi net ii).2 := by
  induction net with
  | nil => intro ii n hn; exact absurd hn (List.not_mem_nil _)
  | cons m rest ih =>
    intro ii n hn h1 h2 h3
    unfold fppInterfaces
    by_cases hm : m.operstate = "UP" ∧ m.iip ≠ "" ∧ m.label ≠ ""
    · rw [if_pos hm]
      rcases List.mem_cons.1 hn with hn | hn
      · rw [hn]; exact List.mem_cons_self _ _
      · exact List.mem_cons_of_mem _ (ih (ii + 1) n hn h1 h2 h3)
    · rw [if_neg hm]
      rcases List.mem_cons.1 hn with hn | hn
      · exact absurd ⟨hn ▸ h1, hn ▸ h2, hn ▸ h3⟩ hm
      · exact ih ii n hn h1 h2 h3

theorem fppWork_nonempty_wifi_reply (DecodeWifiStrength : Int → String) (ip : String)
    (net : List FPPInterface) (wificonfig : String) (wifi : Option (List WifiLevel))
    (hw : wificonfig ≠ "") (n : FPPInterface) (hn : n ∈ net)
    (h1 : n.operstate = "UP") (h2 : n.iip ≠ "") (h3 : n.label ≠ "") :
    Call.addIP n.iip "" "" ∈
      FPPWork.calls DecodeWifiStrength ip (fppRepliesOf net wificonfig wifi) := by
  have hmark : Contains "[ operstate ]" "operstate" = true := by decide
  have h := fppInterfaces_addIP DecodeWifiStrength wifi net 1 n hn h1 h2 h3
  simp only [FPPWork.calls, fppRepliesOf, hmark, hw, ne_eq, not_true_eq_false, not_false_eq_true,
    and_self, and_false, if_true, if_false, List.append_nil, List.nil_append]
  simp only [String.reduceEq, not_false_eq_true, and_self, if_true, false_and, if_false,
    List.append_nil]
  exact List.mem_append_left _ h

/-- C17 at the failing input: a device confirmed by the marker, whose
interface listing holds two interfaces that are UP with address and label.
When the signal-strength fetch returns nothing, `FPPWork::DoWork` publishes
the record without any "IP n" entry and makes no `AddIP`, so nothing reaches
the ping queue; when the same fetch returns text that does not parse, both
interfaces get their entry and their `AddIP`. -/
theorem C17_fpp_empty_wifi_reply_drops_interfaces :
    FPPWork.calls (fun _ => "Good") "10.0.0.7"
        (fppRepliesOf [⟨"UP", "192.168.1.50", "eth0"⟩, ⟨"UP", "192.168.1.51", "wlan0"⟩] "" none) =
      [Call.publishResult [("IP", "10.0.0.7"), ("Type", "FPP")]] ∧
    (FPPWork.DoWork (fun _ => "Good") {} "10.0.0.7"
        (fppRepliesOf [⟨"UP", "192.168.1.50", "eth0"⟩, ⟨"UP", "192.168.1.51", "wlan0"⟩]
          "" none)).queuePing = [] ∧
    FPPWork.calls (fun _ => "Good") "10.0.0.7"
        (fppRepliesOf [⟨"UP", "192.168.1.50", "eth0"⟩, ⟨"UP", "192.168.1.51", "wlan0"⟩]
          "garbage" none) =
      [Call.addIP "192.168.1.50" "" "", Call.addIP "192.168.1.51" "" "",
       Call.publishResult [("IP", "10.0.0.7"), ("Type", "FPP"),
         ("IP 1", "eth0 : 192.168.1.50 "), ("IP 2", "wlan0 : 192.168.1.51 ")]] ∧
    (FPPWork.DoWork (fun _ => "Good") {} "10.0.0.7"
        (fppRepliesOf [⟨"UP", "192.168.1.50", "eth0"⟩, ⟨"UP", "192.168.1.51", "wlan0"⟩]
          "garbage" none)).queuePing =
      [Work.ping "192.168.1.50" "" "", Work.ping "192.168.1.51" "" ""] := by
  decide

end xScanner
